import Mathlib

/-!
# Packages `jail` and `md`

A shallow embedding of `src/jail/marshal.go`, `src/jail/init.go`,
`src/jail/params.go` and `src/jail/jail.go` (parameter codec, binding list,
lifecycle of a handle, enumeration), and of the attach state of
`src/md/mdmfs.go`.

Conventions of the embedding:

* a byte is a `Fin 256`; a Go `string`, a `net.IP` and a C buffer are lists of bytes;
* the host is a 64-bit little-endian FreeBSD machine: Go `int` is 8 bytes,
  `C.int` is 4 bytes, `C.size_t` is 8 bytes, multi-byte integers are stored
  least significant byte first;
* Go values handed over as `interface{}` are the finite trees of `GoVal`;
  `reflect.Value` is `RValue` (the value reached and whether it is addressable);
* a function that can fail returns `Except Fault _`: `Fault.err` is a Go `error`
  value that the function returns, `Fault.panic` is a run-time panic or a memory
  fault (the function does not return);
* code that mutates through a pointer returns the new content of the pointee;
* libjail and the kernel are not part of the repository: they are the fields of
  `Kernel`, `Syscalls` and `MdKernel`, arbitrary functions constrained only by
  the shape of their results; a kernel that changes between two calls is two
  such values.
-/

namespace jail

/-- One octet. -/
abbrev Byte := Fin 256

/-! ## Go values as seen through `reflect` -/

/-- The Go values that can reach the codec as an `interface{}`. -/
inductive GoVal
  /-- the nil interface: `reflect.ValueOf` gives the zero `Value`, kind `Invalid` -/
  | nil
  /-- a Go `int` (kind `Int`, 8 bytes) -/
  | int (v : Int)
  /-- an `int32`, which is also what cgo makes of `C.int` (kind `Int32`, 4 bytes) -/
  | int32 (v : Int)
  /-- an `int64` (kind `Int64`, 8 bytes) -/
  | int64 (v : Int)
  /-- a `string` (kind `String`) -/
  | str (s : List Byte)
  /-- a `bool` (kind `Bool`) -/
  | bool (b : Bool)
  /-- a `net.IP`, that is a `[]byte` of the value's own width -/
  | ip (a : List Byte)
  /-- a `[]net.IP` -/
  | ipSlice (l : List (List Byte))
  /-- a non-nil pointer to a variable holding `target` (kind `Ptr`) -/
  | ptr (target : GoVal)
  /-- a nil pointer (kind `Ptr`, `Elem` is the zero `Value`) -/
  | nilPtr
  /-- a variable of interface type holding `inner` (kind `Interface`) -/
  | iface (inner : GoVal)
  /-- a value of any other type (float, struct, map, ...) -/
  | other
  deriving DecidableEq, Repr

/-- The part of a `reflect.Value` the codec looks at. -/
structure RValue where
  /-- the value held; `GoVal.nil` stands for the zero `Value` -/
  val : GoVal
  /-- whether `CanAddr` (and `CanSet`) holds -/
  addressable : Bool
  deriving DecidableEq, Repr

/-- The loop of `deref`: `Elem` through pointers (the pointee is addressable)
and interfaces (the content is not), until another kind is reached. -/
def derefFrom (addressable : Bool) : GoVal → RValue
  | .ptr target => derefFrom true target
  | .nilPtr => ⟨.nil, false⟩
  | .iface inner => derefFrom false inner
  | .nil => ⟨.nil, false⟩
  | v => ⟨v, addressable⟩

/-- Embeds `deref` (marshal.go:33): `reflect.ValueOf(iface)` followed by the `Elem` loop. -/
def deref (iface : GoVal) : RValue := derefFrom false iface

/-- The test `kind == reflect.Int || kind == reflect.Int32 || kind == reflect.Int64`. -/
def isIntKind : GoVal → Bool
  | .int _ => true
  | .int32 _ => true
  | .int64 _ => true
  | _ => false

/-! ## Errors -/

/-- The `error` values the package returns, one constructor per message. -/
inductive JailError
  /-- marshal.go:49 -/
  | invalidParameter (name : String)
  /-- marshal.go:54 and marshal.go:61 (both say "must be a string") -/
  | mustBeString (name : String)
  /-- marshal.go:69 -/
  | mustBeBool (name : String)
  /-- marshal.go:81 -/
  | mustBeIP (name : String)
  /-- marshal.go:92 -/
  | mustBeIPSlice (name : String)
  /-- marshal.go:113 -/
  | unknownParameter (name : String)
  /-- marshal.go:118 -/
  | outMustBeInt
  /-- marshal.go:126 -/
  | outMustBeString
  /-- marshal.go:135 -/
  | outMustBeBool
  /-- marshal.go:153 -/
  | cannotCoerceToIPs (name : String)
  /-- params.go:55 -/
  | bindTwice (name : String)
  /-- params.go:85 -/
  | notInList (name : String)
  /-- an errno reported by libjail or the kernel -/
  | errno (code : Nat)
  deriving DecidableEq, Repr

/-- How a call can fail to produce its result. -/
inductive Fault
  /-- the call returns this Go `error` -/
  | err (e : JailError)
  /-- the call does not return: run-time panic or memory fault -/
  | panic
  /-- the embedding ran out of fuel: never in the decoder (see `readChunks_fuel`);
  in the enumeration loop only when the kernel keeps returning ids
  (see `enumerateLoop_walk`) -/
  | outOfFuel
  deriving DecidableEq, Repr

deriving instance DecidableEq for Except

/-! ## Registry (init.go) -/

/-- The five `reflect.Type` values that `init` stores in the package variables. -/
inductive ParamType
  | intType
  | stringType
  | ipType
  | ipSliceType
  | boolType
  deriving DecidableEq, Repr

/-- The map literal of `init` (init.go:15-53), as an association list. -/
def paramTypeMapping : List (String × ParamType) :=
  [ ("jid", .intType),
    ("lastjid", .intType),
    ("name", .stringType),
    ("path", .stringType),
    ("ip4", .stringType),
    ("ip4.addr", .ipSliceType),
    ("ip4.saddrsel", .boolType),
    ("ip6", .stringType),
    ("ip6.addr", .ipSliceType),
    ("ip6.saddrsel", .boolType),
    ("host", .stringType),
    ("host.hostname", .stringType),
    ("host.domainname", .stringType),
    ("host.hostuuid", .stringType),
    ("host.hostid", .stringType),
    ("securelevel", .intType),
    ("children.max", .intType),
    ("children.cur", .intType),
    ("parent", .intType),
    ("enforce_statfs", .boolType),
    ("persist", .boolType),
    ("cpuset.id", .intType),
    ("dying", .boolType),
    ("allow.set_hostname", .boolType),
    ("allow.sysvipc", .boolType),
    ("allow.raw_sockets", .boolType),
    ("allow.chflags", .boolType),
    ("allow.mount", .boolType),
    ("allow.quotas", .boolType),
    ("allow.socket_af", .boolType) ]

/-- Embeds `jailParamType` (marshal.go:25): the registered type, `none` for Go's `nil`. -/
def jailParamType (name : String) : Option ParamType :=
  paramTypeMapping.lookup name

/-! ## Machine integers and raw memory -/

/-- The `w` low-order bytes of `n`, least significant first. -/
def leBytes : Nat → Nat → List Byte
  | 0, _ => []
  | w + 1, n => ⟨n % 256, Nat.mod_lt _ (by decide)⟩ :: leBytes w (n / 256)

/-- The memory of a `w`-byte two's-complement integer variable holding `v`. -/
def intBytes (w : Nat) (v : Int) : List Byte :=
  leBytes w (v % (2 : Int) ^ (8 * w)).toNat

/-- The unsigned number stored, least significant byte first, in `bs`. -/
def leNat : List Byte → Nat
  | [] => 0
  | b :: bs => b.val + 256 * leNat bs

/-- The signed reading of a `w`-byte unsigned number. -/
def toSigned (w : Nat) (u : Nat) : Int :=
  if u < 2 ^ (8 * w - 1) then (u : Int) else (u : Int) - (2 : Int) ^ (8 * w)

/-- The load `*(*C.int)(p)`: four bytes at `p`; `none` when `p` is `NULL` or
fewer than four bytes are mapped there. -/
def readCInt (p : Option (List Byte)) : Option Int :=
  match p with
  | none => none
  | some mem => if 4 ≤ mem.length then some (toSigned 4 (leNat (mem.take 4))) else none

/-- The load `*(*C.char)(p)`: one byte at `p`. -/
def readCChar (p : Option (List Byte)) : Option Byte :=
  match p with
  | none => none
  | some mem => mem.head?

/-- The conversion `C.int(n)` of a `C.size_t`: the low 32 bits, read as signed. -/
def cInt (n : Nat) : Int := toSigned 4 (n % 2 ^ 32)

/-- Embeds `C.GoBytes(p, n)`: a copy of the `n` bytes at `p`. Length 0 gives the empty
slice whatever `p` is; a negative length panics; reading from `NULL` or past the
mapped bytes is a memory fault. -/
def GoBytes (p : Option (List Byte)) (n : Int) : Except Fault (List Byte) :=
  if n = 0 then .ok []
  else if n < 0 then .error .panic
  else match p with
    | none => .error .panic
    | some mem => if n.toNat ≤ mem.length then .ok (mem.take n.toNat) else .error .panic

/-- Embeds `strings.Trim` with the cutset 0x00: all leading and all trailing 0x00
bytes removed. -/
def trimNul (s : List Byte) : List Byte :=
  (s.dropWhile (fun b => b == 0)).rdropWhile (fun b => b == 0)

/-- The loop `for buf.Len() >= stride { b := make([]byte, stride); buf.Read(b); ... }`
(marshal.go:156-167), one iteration per unit of fuel; `none` when the fuel runs out. -/
def readChunks (stride : Nat) : Nat → List Byte → Option (List (List Byte))
  | 0, _ => none
  | fuel + 1, buf =>
    if stride ≤ buf.length then
      (readChunks stride fuel (buf.drop stride)).map (fun rest => buf.take stride :: rest)
    else some []

/-! ## The C structure -/

/-- The fields of `struct jailparam` that the Go code reads or writes. `jp_value`
is the memory found at the pointer (`none` for `NULL`). -/
structure Jailparam where
  jp_name : String
  jp_value : Option (List Byte)
  jp_valuelen : Nat
  jp_flags : Nat
  deriving DecidableEq, Repr

/-- The flag `JP_RAWVALUE` of FreeBSD's `jail.h` (not in the repository). -/
def JP_RAWVALUE : Nat := 1

/-! ## Codec (marshal.go) -/

/-- Embeds `jailParamTypeCoerce` (marshal.go:43): the memory at the returned pointer
(`none` for a nil pointer) and the returned length. -/
def jailParamTypeCoerce (name : String) (iface : GoVal) :
    Except Fault (Option (List Byte) × Nat) :=
  let val := deref iface
  match jailParamType name with
  | none => .error (.err (.invalidParameter name))
  | some .intType =>
    if isIntKind val.val then
      -- val.UnsafeAddr() panics on a value that is not addressable
      if val.addressable then
        match val.val with
        | .int v => .ok (some (intBytes 8 v), 8)
        | .int32 v => .ok (some (intBytes 4 v), 4)
        | .int64 v => .ok (some (intBytes 8 v), 8)
        | _ => .error .panic
      else .error .panic
    else .error (.err (.mustBeString name))
  | some .stringType =>
    match val.val with
    | .str sval =>
      -- &sval[0] panics on an empty slice
      match sval with
      | [] => .error .panic
      | _ :: _ => .ok (some sval, sval.length)
    | _ => .error (.err (.mustBeString name))
  | some .boolType =>
    match val.val with
    | .bool bval => .ok (some [if bval then 1 else 0], 1)
    | _ => .error (.err (.mustBeBool name))
  | some .ipType =>
    match val.val with
    | .nil => .error .panic   -- val.Interface() on the zero Value
    | .ip sval =>
      match sval with
      | [] => .error .panic
      | _ :: _ => .ok (some sval, sval.length)
    | _ => .error (.err (.mustBeIP name))
  | some .ipSliceType =>
    match val.val with
    | .nil => .error .panic   -- val.Interface() on the zero Value
    | .ipSlice ips =>
      let buf := ips.foldl (fun buf ip => buf ++ ip) []
      if buf.length > 0 then .ok (some buf, buf.length) else .ok (none, 0)
    | _ => .error (.err (.mustBeIPSlice name))

/-- Embeds `reflect.Value.SetInt` on a value of an integer kind. -/
def setInt (target : GoVal) (x : Int) : GoVal :=
  match target with
  | .int _ => .int x
  | .int32 _ => .int32 (toSigned 4 ((x % (2 : Int) ^ 32).toNat))
  | .int64 _ => .int64 x
  | v => v

/-- Embeds `jailParamTypeExtract` (marshal.go:107). On success the result is the content
of the variable that `out` leads to, after the call. The registry holds only the
five types of `ParamType`, so the closing `else` (marshal.go:179) has no case;
`fmt.Printf` only writes to standard output. -/
def jailParamTypeExtract (name : String) (val : Jailparam) (out : GoVal) :
    Except Fault GoVal :=
  let outVal := deref out
  match jailParamType name with
  | none => .error (.err (.unknownParameter name))
  | some .intType =>
    if isIntKind outVal.val then
      match readCInt val.jp_value with
      | none => .error .panic
      | some intVal =>
        if outVal.addressable then .ok (setInt outVal.val intVal) else .error .panic
    else .error (.err .outMustBeInt)
  | some .stringType =>
    match outVal.val with
    | .str _ =>
      match GoBytes val.jp_value (cInt val.jp_valuelen) with
      | .error f => .error f
      | .ok strVal =>
        if outVal.addressable then .ok (.str (trimNul strVal)) else .error .panic
    | _ => .error (.err .outMustBeString)
  | some .boolType =>
    match outVal.val with
    | .bool _ =>
      match readCChar val.jp_value with
      | none => .error .panic
      | some boolVal =>
        if outVal.addressable then .ok (.bool (boolVal != 0)) else .error .panic
    | _ => .error (.err .outMustBeBool)
  | some _ =>
    -- ty == ipType || ty == ipSliceType
    match GoBytes val.jp_value (cInt val.jp_valuelen) with
    | .error f => .error f
    | .ok buf =>
      let stride? : Option Nat :=
        if name = "ip4.addr" then some 4 else if name = "ip6.addr" then some 16 else none
      match stride? with
      | none => .error (.err (.cannotCoerceToIPs name))
      | some stride =>
        match readChunks stride (buf.length + 1) buf with
        | none => .error .outOfFuel
        | some newSlice =>
          match outVal.val with
          | .nil => .error .panic   -- outVal.Interface() on the zero Value
          | .ipSlice _ =>
            if outVal.addressable then .ok (.ipSlice newSlice) else .error .panic
          | .ip _ =>
            match newSlice with
            | [] => .error .panic   -- newSlice.Index(0)
            | first :: _ => if outVal.addressable then .ok (.ip first) else .error .panic
          | v => .ok v   -- fmt.Printf only: falls through to `return nil`

/-- Encode `v` for `name`, hand pointer and length to a `struct jailparam` as
`bindParameter` does, and decode that into `target`. -/
def encodeThenDecode (name : String) (v target : GoVal) : Except Fault GoVal :=
  match jailParamTypeCoerce name v with
  | .error f => .error f
  | .ok (ptr, ptrLen) =>
    jailParamTypeExtract name
      { jp_name := name, jp_value := ptr, jp_valuelen := ptrLen % 2 ^ 64,
        jp_flags := JP_RAWVALUE } target

/-! ## libjail and the kernel -/

/-- The two services the package gets from outside the repository.

* `paramInfo name` is what `jailparam_init` learns about `name` from the kernel:
  an errno, or the value length and flags it stores in the structure;
* `get params flags` is `jailparam_get`: an errno (and then nothing is written),
  or the returned jail id together with, for each structure, the bytes the kernel
  wrote at the start of its value buffer and the value length it left there. -/
structure Kernel where
  paramInfo : String → Except Nat (Nat × Nat)
  get : List Jailparam → Nat → Except Nat (Int × (Jailparam → List Byte × Nat))

/-- Embeds `jailparam_init` of libjail: a structure named `name` with no value yet. -/
def jailparam_init (k : Kernel) (name : String) : Except Nat Jailparam :=
  match k.paramInfo name with
  | .error code => .error code
  | .ok (len, flags) =>
    .ok { jp_name := name, jp_value := none, jp_valuelen := len, jp_flags := flags }

/-- Bytes `written` at the start of a buffer holding `old` (a `NULL` value is
allocated by libjail first). -/
def overwrite (old : Option (List Byte)) (written : List Byte) : List Byte :=
  written ++ (old.getD []).drop written.length

/-- The in-place effect of a successful `jailparam_get` on one structure. -/
def applyResponse (resp : Jailparam → List Byte × Nat) (p : Jailparam) : Jailparam :=
  { p with jp_value := some (overwrite p.jp_value (resp p).1), jp_valuelen := (resp p).2 }

/-! ## Binding list (params.go) -/

/-- Embeds `jailParamList` (params.go:16). A Go map is an association list read with
`List.lookup`; `none` is the nil map. -/
structure jailParamList where
  params : List Jailparam
  nameMapping : Option (List (String × Nat))
  deriving DecidableEq, Repr

/-- Embeds `bindOutput` (params.go:49): the returned error and the list at exit. -/
def bindOutput (k : Kernel) (jpps : jailParamList) (name : String) :
    Except Fault Unit × jailParamList :=
  -- if jpps.nameMapping == nil { jpps.nameMapping = map[string]int{} }
  let m := jpps.nameMapping.getD []
  match m.lookup name with
  | some _ => (.error (.err (.bindTwice name)), { jpps with nameMapping := some m })
  | none =>
    let jpps1 : jailParamList :=
      { jpps with nameMapping := some ((name, jpps.params.length) :: m) }
    match jailparam_init k name with
    | .error code => (.error (.err (.errno code)), jpps1)
    | .ok jpp => (.ok (), { jpps1 with params := jpps1.params ++ [jpp] })

/-- Embeds `bindParameter` (params.go:21). -/
def bindParameter (k : Kernel) (jpps : jailParamList) (name : String) (value : GoVal) :
    Except Fault Unit × jailParamList :=
  match jailParamTypeCoerce name value with
  | .error f => (.error f, jpps)
  | .ok (valuePtr, valueLen) =>
    match bindOutput k jpps name with
    | (.error f, jpps1) => (.error f, jpps1)
    | (.ok _, jpps1) =>
      -- jpp := &jpps.params[len(jpps.params)-1]
      match jpps1.params.getLast? with
      | none => (.error .panic, jpps1)
      | some jpp =>
        (.ok (),
          { jpps1 with
            params := jpps1.params.dropLast ++
              [{ jpp with
                  jp_value := valuePtr
                  jp_valuelen := valueLen % 2 ^ 64
                  jp_flags := jpp.jp_flags ||| JP_RAWVALUE }] })

/-- Embeds `bindParameters` (params.go:39); the list is the map in the order in which
the run time happens to iterate over it. -/
def bindParameters (k : Kernel) (jpps : jailParamList) :
    List (String × GoVal) → Except Fault Unit × jailParamList
  | [] => (.ok (), jpps)
  | (name, value) :: rest =>
    match bindParameter k jpps name value with
    | (.error f, jpps1) => (.error f, jpps1)
    | (.ok _, jpps1) => bindParameters k jpps1 rest

/-- Embeds `bindOutputs` (params.go:72). -/
def bindOutputs (k : Kernel) (jpps : jailParamList) :
    List String → Except Fault Unit × jailParamList
  | [] => (.ok (), jpps)
  | name :: rest =>
    match bindOutput k jpps name with
    | (.error f, jpps1) => (.error f, jpps1)
    | (.ok _, jpps1) => bindOutputs k jpps1 rest

/-- Embeds `grabOutput` (params.go:82): the new content of the variable behind `out`. -/
def grabOutput (jpps : jailParamList) (name : String) (out : GoVal) : Except Fault GoVal :=
  match (jpps.nameMapping.getD []).lookup name with
  | none => .error (.err (.notInList name))
  | some idx =>
    match jpps.params.get? idx with
    | none => .error .panic   -- index out of range
    | some jpp => jailParamTypeExtract name jpp out

/-! ## Vocabulary for statements about binding lists -/

/-- A name is bound when it is a key of `nameMapping`. -/
def bound (jpps : jailParamList) (name : String) : Prop :=
  ((jpps.nameMapping.getD []).lookup name).isSome = true

/-- The names carried by the bindings of a list. -/
def boundNames (jpps : jailParamList) : List String := jpps.params.map (fun p => p.jp_name)

/-- Every binding's name is a key of the index and no name occurs twice. -/
def NamesUnique (jpps : jailParamList) : Prop :=
  (boundNames jpps).Nodup ∧ ∀ n ∈ boundNames jpps, bound jpps n

/-- The index is a bijection between the bound names and the positions of
`params`: a name maps to the position of the binding that carries it, and the name
of every binding maps to its position. -/
def IndexBijective (jpps : jailParamList) : Prop :=
  (∀ name idx, (jpps.nameMapping.getD []).lookup name = some idx →
    (boundNames jpps).get? idx = some name) ∧
  (∀ idx name, (boundNames jpps).get? idx = some name →
    (jpps.nameMapping.getD []).lookup name = some idx)

/-- One call on a binding list. -/
inductive BindCall
  | output (name : String)
  | parameter (name : String) (value : GoVal)

/-- The list after a sequence of calls, whatever each call returned. -/
def runCalls (k : Kernel) (jpps : jailParamList) : List BindCall → jailParamList
  | [] => jpps
  | .output name :: rest => runCalls k (bindOutput k jpps name).2 rest
  | .parameter name value :: rest => runCalls k (bindParameter k jpps name value).2 rest

/-! ## The handle (jail.go) -/

/-- Embeds `Jail` (jail.go:29). -/
structure Jail where
  jid : Int
  parent : Int
  name : List Byte
  hostname : List Byte
  path : List Byte
  cpusetId : Int
  addrs : List (List Byte)
  deriving DecidableEq, Repr

/-- The content of a `string` variable whose new content is `out`. -/
def strOf (out : GoVal) (old : List Byte) : List Byte :=
  match out with
  | .str s => s
  | _ => old

/-- The content of a `[]net.IP` variable whose new content is `out`. -/
def ipSliceOf (out : GoVal) (old : List (List Byte)) : List (List Byte) :=
  match out with
  | .ipSlice l => l
  | _ => old

/-- The Go `int` variable `j.jid` after a successful `jailparam_get`: the list
holds its address as the value of the first structure, so it reads what the
kernel left in that buffer. -/
def jidAfterGet (jid : Int) (params : List Jailparam) : Int :=
  match params.head? with
  | none => jid
  | some p =>
    match p.jp_value with
    | none => jid
    | some mem => if 8 ≤ mem.length then toSigned 8 (leNat (mem.take 8)) else jid

/-- Embeds `Jail.Refresh` (jail.go:115): the returned error and the handle at exit.
`defer jpps.release()` only frees C memory and is not modelled. -/
def Refresh (k : Kernel) (j : Jail) : Except Fault Unit × Jail :=
  let jpps : jailParamList := { params := [], nameMapping := none }
  match bindParameter k jpps "jid" (.ptr (.int j.jid)) with
  | (.error f, _) => (.error f, j)
  | (.ok _, jpps) =>
  match bindOutputs k jpps
      ["parent", "name", "host.hostname", "path", "cpuset.id", "ip4.addr"] with
  | (.error f, _) => (.error f, j)
  | (.ok _, jpps) =>
  match jpps.params with
  | [] => (.error .panic, j)   -- &jpps.params[0]
  | _ :: _ =>
  match k.get jpps.params 0 with
  | .error code => (.error (.err (.errno code)), j)
  | .ok (_, resp) =>
  let jpps : jailParamList := { jpps with params := jpps.params.map (applyResponse resp) }
  let j : Jail := { j with jid := jidAfterGet j.jid jpps.params }
  match grabOutput jpps "name" (.ptr (.str j.name)) with
  | .error f => (.error f, j)
  | .ok out =>
  let j : Jail := { j with name := strOf out j.name }
  match grabOutput jpps "host.hostname" (.ptr (.str j.hostname)) with
  | .error f => (.error f, j)
  | .ok out =>
  let j : Jail := { j with hostname := strOf out j.hostname }
  match grabOutput jpps "path" (.ptr (.str j.path)) with
  | .error f => (.error f, j)
  | .ok out =>
  let j : Jail := { j with path := strOf out j.path }
  match grabOutput jpps "ip4.addr" (.ptr (.ipSlice j.addrs)) with
  | .error f => (.error f, j)
  | .ok out => (.ok (), { j with addrs := ipSliceOf out j.addrs })

/-! ## Lifecycle of a handle (jail.go) -/

/-- The calls that change kernel state, next to the queries of `Kernel`.

* `set params flags` is `jailparam_set`: an errno, or the id of the jail created
  or updated; the kernel only reads the value buffers;
* `remove jid` is `jail_remove` on a C `int`. -/
structure Syscalls extends Kernel where
  set : List Jailparam → Nat → Except Nat Int
  remove : Int → Except Nat Unit

/-- The flag `JAIL_CREATE` of FreeBSD's `sys/jail.h` (not in the repository). -/
def JAIL_CREATE : Nat := 1

/-- The flag `JAIL_UPDATE` of FreeBSD's `sys/jail.h` (not in the repository). -/
def JAIL_UPDATE : Nat := 2

/-- The errno `ENOENT`, the value of `syscall.ENOENT`. -/
def ENOENT : Nat := 2

/-- The order in which `range` visits a Go map whose entries are `l`: Go leaves
it unspecified, so it is some permutation of `l`, here the one picked by `seed`. -/
def iterationOrder {α : Type} (seed : Nat) (l : List α) : List α :=
  (l.permutations').getD seed l

/-- The conversion `C.int(v)` of a Go `int`: the low 32 bits, read as signed. -/
def cIntOfInt (v : Int) : Int := toSigned 4 (v % (2 : Int) ^ 32).toNat

/-- The composite literal `Jail{jid: jid}`: every other field has its zero value. -/
def newHandle (jid : Int) : Jail :=
  { jid := jid, parent := 0, name := [], hostname := [], path := [], cpusetId := 0, addrs := [] }

/-- Embeds `NewJail` (jail.go:48): the returned handle (`none` for nil) and error.
The error that `bindParameters` returns is dropped, as in the source. -/
def NewJail (s : Syscalls) (seed : Nat) (name path : List Byte) :
    Option Jail × Except Fault Unit :=
  let jpps : jailParamList := { params := [], nameMapping := none }
  let params : List (String × GoVal) := iterationOrder seed
    [("name", .str name), ("host.hostname", .str name), ("path", .str path),
     ("persist", .bool true)]
  match bindParameters s.toKernel jpps params with
  | (.error .panic, _) => (none, .error .panic)
  | (.error .outOfFuel, _) => (none, .error .outOfFuel)
  | (_, jpps) =>
  match jpps.params with
  | [] => (none, .error .panic)   -- &jpps.params[0]
  | _ :: _ =>
  match s.set jpps.params JAIL_CREATE with
  | .error code => (none, .error (.err (.errno code)))
  | .ok jid =>
  match Refresh s.toKernel (newHandle jid) with
  | (.error f, _) => (none, .error f)
  | (.ok _, jail) => (some jail, .ok ())

/-- The memory of the C `int` variable `lastjid`, which the first structure of
the list points to, after the variable is assigned `v`. -/
def storeLastjid (v : Int) (params : List Jailparam) : List Jailparam :=
  match params with
  | [] => []
  | p :: rest => { p with jp_value := some (intBytes 4 v) } :: rest

/-- The loop `for lastjid >= 0 { ... }` of `EnumerateJails` (jail.go:92-101), one
iteration per unit of fuel. libjail returns -1 whenever it reports an errno. -/
def enumerateLoop (k : Kernel) : Nat → Int → List Jailparam → List Jail →
    Except Fault (List Jail)
  | 0, _, _, _ => .error .outOfFuel
  | fuel + 1, lastjid, params, jails =>
    if 0 ≤ lastjid then
      match params with
      | [] => .error .panic   -- &jpps.params[0]
      | p :: rest =>
        match k.get (p :: rest) 0 with
        | .ok (jid, resp) =>
          enumerateLoop k fuel jid
            (storeLastjid jid ((p :: rest).map (applyResponse resp))) (jails ++ [newHandle jid])
        | .error code =>
          if code = ENOENT then
            enumerateLoop k fuel (-1) (storeLastjid (-1) (p :: rest)) jails
          else .error (.err (.errno code))
    else .ok jails

/-- The loop `for i := range jails { jails[i].Refresh() }` (jail.go:103-107). -/
def refreshEach (k : Kernel) : List Jail → Except Fault (List Jail)
  | [] => .ok []
  | j :: rest =>
    match Refresh k j with
    | (.error f, _) => .error f
    | (.ok _, j1) =>
      match refreshEach k rest with
      | .error f => .error f
      | .ok rest1 => .ok (j1 :: rest1)

/-- Embeds `EnumerateJails` (jail.go:82): the returned slice (`[]` for nil) and error. -/
def EnumerateJails (k : Kernel) (fuel : Nat) : List Jail × Except Fault Unit :=
  let jpps : jailParamList := { params := [], nameMapping := none }
  match bindParameter k jpps "lastjid" (.ptr (.int32 0)) with
  | (.error f, _) => ([], .error f)
  | (.ok _, jpps) =>
  match enumerateLoop k fuel 0 jpps.params [] with
  | .error f => ([], .error f)   -- return nil, er
  | .ok jails =>
  match refreshEach k jails with
  | .error f => ([], .error f)   -- return nil, er
  | .ok jails => (jails, .ok ())

/-- Embeds `Jail.Jid` (jail.go:153). -/
def Jid (j : Jail) : Int := j.jid

/-- Embeds `Jail.Parent` (jail.go:159). -/
def Parent (j : Jail) : Int := j.parent

/-- Embeds `Jail.CpusetId` (jail.go:205). -/
def CpusetId (j : Jail) : Int := j.cpusetId

/-- Embeds `Jail.SetHostname` (jail.go:175). -/
def SetHostname (s : Syscalls) (seed : Nat) (j : Jail) (hostname : List Byte) :
    Except Fault Unit × Jail :=
  let jpps : jailParamList := { params := [], nameMapping := none }
  let params : List (String × GoVal) := iterationOrder seed
    [("jid", .ptr (.int j.jid)), ("host.hostname", .str hostname)]
  match bindParameters s.toKernel jpps params with
  | (.error f, _) => (.error f, j)
  | (.ok _, jpps) =>
  match jpps.params with
  | [] => (.error .panic, j)   -- &jpps.params[0]
  | _ :: _ =>
  match s.set jpps.params JAIL_UPDATE with
  | .error code => (.error (.err (.errno code)), j)
  | .ok _ => (.ok (), { j with hostname := hostname })

/-- Embeds `Jail.SetCpusetId` (jail.go:212). -/
def SetCpusetId (s : Syscalls) (seed : Nat) (j : Jail) (id : Int) :
    Except Fault Unit × Jail :=
  let jpps : jailParamList := { params := [], nameMapping := none }
  let params : List (String × GoVal) := iterationOrder seed
    [("jid", .ptr (.int j.jid)), ("cpuset.id", .int id)]
  match bindParameters s.toKernel jpps params with
  | (.error f, _) => (.error f, j)
  | (.ok _, jpps) =>
  match jpps.params with
  | [] => (.error .panic, j)   -- &jpps.params[0]
  | _ :: _ =>
  match s.set jpps.params JAIL_UPDATE with
  | .error code => (.error (.err (.errno code)), j)
  | .ok _ => (.ok (), { j with cpusetId := id })

/-- Embeds `Jail.Destroy` (jail.go:263). -/
def Destroy (s : Syscalls) (j : Jail) : Except Fault Unit × Jail :=
  match s.remove (cIntOfInt j.jid) with
  | .error code => (.error (.err (.errno code)), j)
  | .ok _ => (.ok (), j)

/-- What the kernel of an enumeration over the containers `ids` does, as far as
`EnumerateJails` can observe it: it knows the parameters that are bound; a get
whose only structure is "lastjid" holding the bookmark `b` returns the first id
after `b`, or fails with `ENOENT` when there is none; a get whose first structure
is "jid" holding the id of a container succeeds, leaves that id in place and
fills each value buffer with a length it really has, below 2^31. -/
structure HoldsContainers (k : Kernel) (ids : List Int) : Prop where
  info : ∀ name ∈ ["lastjid", "jid", "parent", "name", "host.hostname", "path",
    "cpuset.id", "ip4.addr"], ∃ i, k.paramInfo name = .ok i
  next : ∀ (p : Jailparam) (b id : Int), p.jp_name = "lastjid" → readCInt p.jp_value = some b →
    ids.find? (fun i => decide (b < i)) = some id → ∃ resp, k.get [p] 0 = .ok (id, resp)
  last : ∀ (p : Jailparam) (b : Int), p.jp_name = "lastjid" → readCInt p.jp_value = some b →
    ids.find? (fun i => decide (b < i)) = none → k.get [p] 0 = .error ENOENT
  byId : ∀ (p : Jailparam) (rest : List Jailparam) (id : Int), id ∈ ids → p.jp_name = "jid" →
    p.jp_value = some (intBytes 8 id) →
    ∃ r resp, k.get (p :: rest) 0 = .ok (r, resp) ∧
      jidAfterGet id ((p :: rest).map (applyResponse resp)) = id ∧
      ∀ q, (resp q).2 < 2 ^ 31 ∧ (resp q).2 ≤ (overwrite q.jp_value (resp q).1).length

end jail

/-! # Package `md`: the attach state of a memory disk (mdmfs.go) -/

namespace md

/-- The values of `md_type` that the package stores (`sys/mdioctl.h`); `MD_MALLOC`
is the first value of the C enumeration, that is 0. -/
inductive MdType
  | MD_MALLOC
  | MD_VNODE
  | MD_SWAP
  deriving DecidableEq, Repr

/-- The option bits that the package sets (`sys/mdioctl.h`). -/
inductive MdOption
  | MD_CLUSTER
  | MD_AUTOUNIT
  | MD_COMPRESS
  deriving DecidableEq, Repr

/-- The fields of `struct md_ioctl` that the package reads or writes. -/
structure md_ioctl where
  md_unit : Nat
  md_type : MdType
  md_file : Option (List jail.Byte)
  md_mediasize : Int
  md_options : List MdOption
  deriving DecidableEq, Repr

/-- Embeds `MDDev` (mdmfs.go:38). -/
structure MDDev where
  attached : Bool
  path : List jail.Byte
  mdio : md_ioctl
  deriving DecidableEq, Repr

/-- The errors the package returns. -/
inductive MdError
  /-- the variable `ErrDeviceAlreadyAttached` -/
  | ErrDeviceAlreadyAttached
  /-- the variable `ErrDeviceNotAttached` -/
  | ErrDeviceNotAttached
  /-- an error of the operating system -/
  | os (code : Nat)
  deriving DecidableEq, Repr

/-- The two requests sent to the control device. -/
inductive MdRequest
  | MDIOCATTACH
  | MDIOCDETACH
  deriving DecidableEq, Repr

/-- The operating system as the package calls it: opening the control device
(`none` when it opens, else the error), and `ioctl` on it, which reports an errno
or none and leaves the structure it was handed in some state. -/
structure MdKernel where
  openCtl : Option Nat
  ioctl : MdRequest → md_ioctl → Option Nat × md_ioctl

/-- The zero value of `struct md_ioctl`; its `md_type` is 0, which is `MD_MALLOC`. -/
def zeroMdio : md_ioctl :=
  { md_unit := 0, md_type := .MD_MALLOC, md_file := none, md_mediasize := 0, md_options := [] }

/-- Embeds `NewMallocMD` (mdmfs.go:72); `C.off_t` is 64 bits wide. -/
def NewMallocMD (size : Int) : MDDev :=
  { attached := false, path := [],
    mdio := { zeroMdio with
      md_type := .MD_MALLOC
      md_options := [.MD_AUTOUNIT, .MD_COMPRESS]
      md_mediasize := jail.toSigned 8 (size % (2 : Int) ^ 64).toNat } }

/-- Embeds `NewSwapMD` (mdmfs.go:83). -/
def NewSwapMD (size : Int) : MDDev :=
  { attached := false, path := [],
    mdio := { zeroMdio with
      md_type := .MD_SWAP
      md_options := [.MD_AUTOUNIT, .MD_COMPRESS]
      md_mediasize := jail.toSigned 8 (size % (2 : Int) ^ 64).toNat } }

/-- The statement `if md.path != "" { md.mdio.md_file = C.CString(md.path) }`. -/
def setFile (md : MDDev) : MDDev :=
  if md.path = [] then md else { md with mdio := { md.mdio with md_file := some md.path } }

/-- Embeds `MDDev.Attach` (mdmfs.go:92): the returned error and the device at exit. -/
def Attach (k : MdKernel) (md : MDDev) : Except MdError Unit × MDDev :=
  if md.attached then (.error .ErrDeviceAlreadyAttached, md)
  else
    match k.openCtl with
    | some code => (.error (.os code), md)
    | none =>
      let md := setFile md
      match k.ioctl .MDIOCATTACH md.mdio with
      | (some code, mdio) => (.error (.os code), { md with mdio := mdio })
      | (none, mdio) => (.ok (), { md with mdio := mdio, attached := true })

/-- Embeds `MDDev.Detach` (mdmfs.go:126): the returned error and the device at exit. -/
def Detach (k : MdKernel) (md : MDDev) : Except MdError Unit × MDDev :=
  if !md.attached then (.error .ErrDeviceNotAttached, md)
  else
    match k.openCtl with
    | some code => (.error (.os code), md)
    | none =>
      let md := setFile md
      let tmpMdio : md_ioctl := { zeroMdio with md_unit := md.mdio.md_unit }
      match k.ioctl .MDIOCDETACH tmpMdio with
      | (some code, _) => (.error (.os code), md)
      | (none, _) => (.ok (), md)

/-- Embeds `MDDev.Attached` (mdmfs.go:158). -/
def Attached (md : MDDev) : Bool := md.attached

/-- Embeds `MDDev.DevicePath` (mdmfs.go:179): the unit number that is printed
after "/dev/md". -/
def DevicePath (md : MDDev) : Except MdError Nat :=
  if !md.attached then .error .ErrDeviceNotAttached
  else .ok md.mdio.md_unit

end md

namespace jail

/-! ## Lemmas: machine integers and raw memory -/

/-- The signed reading of a 4-byte number, with the powers of two written out. -/
theorem toSigned_four (u : Nat) :
    toSigned 4 u = if u < 2147483648 then (u : Int) else (u : Int) - 4294967296 := by
  simp [toSigned]

/-- A length below 2^31 survives the conversions to `C.size_t` and to `C.int`. -/
theorem cInt_of_lt (n : Nat) (h : n < 2 ^ 31) : cInt (n % 2 ^ 64) = (n : Int) := by
  have h1 : n % 2 ^ 64 = n := Nat.mod_eq_of_lt (by omega)
  have h2 : n % 2 ^ 32 = n := Nat.mod_eq_of_lt (by omega)
  have h3 : n < 2147483648 := by omega
  rw [h1, cInt, h2, toSigned_four, if_pos h3]

/-- Copying a buffer shorter than 2^31 bytes under its own length gives the buffer. -/
theorem GoBytes_whole (mem : List Byte) (h : mem.length < 2 ^ 31) :
    GoBytes (some mem) (cInt (mem.length % 2 ^ 64)) = .ok mem := by
  rw [cInt_of_lt _ h]
  cases mem with
  | nil => simp [GoBytes]
  | cons b bs =>
    have h1 : ¬ ((bs.length : Int) + 1 = 0) := by omega
    have h2 : ¬ ((bs.length : Int) + 1 < 0) := by omega
    simp [GoBytes, h1, h2]

/-- A failing `C.GoBytes` panics: it has no Go error to return. -/
theorem GoBytes_no_err (p : Option (List Byte)) (n : Int) (e : JailError) :
    GoBytes p n ≠ .error (.err e) := by
  unfold GoBytes
  split
  · simp
  · split
    · simp
    · cases p with
      | none => simp
      | some mem => simp only []; split <;> simp

/-- Trimming leaves alone a string that neither begins nor ends with 0x00. -/
theorem trimNul_eq_self (s : List Byte) (hh : s.head? ≠ some 0) (hl : s.getLast? ≠ some 0) :
    trimNul s = s := by
  have h1 : s.dropWhile (fun b => b == 0) = s := by
    rw [List.dropWhile_eq_self_iff]
    intro hpos
    cases s with
    | nil => simp at hpos
    | cons a t => simpa using hh
  unfold trimNul
  rw [h1, List.rdropWhile_eq_self_iff]
  intro hne
  rw [List.getLast?_eq_getLast _ hne] at hl
  simpa using hl

/-- The first four bytes of an 8-byte integer hold its value modulo 2^32. -/
theorem leNat_take4_intBytes8 (v : Int) :
    (leNat ((intBytes 8 v).take 4) : Int) = v % 4294967296 := by
  have h0 : (0 : Int) ≤ v % (2 : Int) ^ (8 * 8) := Int.emod_nonneg _ (by norm_num)
  obtain ⟨n, hn⟩ := Int.eq_ofNat_of_zero_le h0
  have hv : v % 4294967296 = (n : Int) % 4294967296 := by
    rw [← hn]; norm_num
  simp only [intBytes, hn, Int.toNat_ofNat, leBytes, List.take, leNat]
  rw [hv]
  simp only [Nat.cast_add, Nat.cast_mul, Nat.cast_ofNat]
  omega

/-- A C `int` load from the memory of a Go `int` in the C `int` range gives that value. -/
theorem readCInt_intBytes8 (v : Int) (tail : List Byte) (hlo : -2 ^ 31 ≤ v) (hhi : v < 2 ^ 31) :
    readCInt (some ((intBytes 8 v).take 4 ++ tail)) = some v := by
  have h := leNat_take4_intBytes8 v
  have hlen : ((intBytes 8 v).take 4).length = 4 := by simp [intBytes, leBytes]
  have htake : ((intBytes 8 v).take 4 ++ tail).take 4 = (intBytes 8 v).take 4 := by
    rw [List.take_append_of_le_length (by omega)]
    simp
  simp only [readCInt, List.length_append, hlen, htake, toSigned_four]
  have : 4 ≤ 4 + tail.length := by omega
  simp only [this, if_true]
  split <;> congr 1 <;> omega

/-! ## Lemmas: address blocks -/

/-- The write loop of the encoder leaves the concatenation of the entries in the buffer. -/
theorem foldl_append_eq_flatten (ips : List (List Byte)) (acc : List Byte) :
    ips.foldl (fun buf ip => buf ++ ip) acc = acc ++ ips.flatten := by
  induction ips generalizing acc with
  | nil => simp
  | cons ip rest ih => simp [ih]

/-- Entries of one width `stride` concatenate to `stride * n` bytes. -/
theorem length_flatten_of_width (stride : Nat) (l : List (List Byte))
    (h : ∀ ip ∈ l, ip.length = stride) : l.flatten.length = stride * l.length := by
  induction l with
  | nil => simp
  | cons ip rest ih =>
    have h1 : ip.length = stride := h ip (by simp)
    have h2 := ih (fun x hx => h x (by simp [hx]))
    simp only [List.flatten_cons, List.length_append, List.length_cons, h1, h2]
    ring

/-- The read loop of the decoder takes a concatenation of blocks of width `stride` apart again. -/
theorem readChunks_flatten (stride : Nat) (hs : 0 < stride) (l : List (List Byte))
    (h : ∀ ip ∈ l, ip.length = stride) (fuel : Nat) (hf : l.length < fuel) :
    readChunks stride fuel l.flatten = some l := by
  induction l generalizing fuel with
  | nil =>
    cases fuel with
    | zero => omega
    | succ f => simp [readChunks]; omega
  | cons ip rest ih =>
    cases fuel with
    | zero => omega
    | succ f =>
      have h1 : ip.length = stride := h ip (by simp)
      have h2 := ih (fun x hx => h x (by simp [hx])) f (by simpa using hf)
      have hle : stride ≤ (ip ++ rest.flatten).length := by simp [h1]
      have htake : (ip ++ rest.flatten).take stride = ip := by
        rw [← h1]; simp
      have hdrop : (ip ++ rest.flatten).drop stride = rest.flatten := by
        rw [← h1]; simp
      simp only [readChunks, List.flatten_cons, hle, if_true, htake, hdrop, h2, Option.map_some']

/-- The loop of the decoder never runs out of the fuel it is given, and returns
the complete leading blocks of the buffer. -/
theorem readChunks_fuel (stride : Nat) (hs : 0 < stride) (fuel : Nat) (buf : List Byte)
    (hf : buf.length < fuel) :
    ∃ l, readChunks stride fuel buf = some l ∧ l.length = buf.length / stride ∧
      l.flatten = buf.take (stride * (buf.length / stride)) ∧ ∀ ip ∈ l, ip.length = stride := by
  induction fuel generalizing buf with
  | zero => omega
  | succ f ih =>
    by_cases hle : stride ≤ buf.length
    · have hlen : (buf.drop stride).length = buf.length - stride := by simp
      obtain ⟨l, h1, h2, h3, h4⟩ := ih (buf.drop stride) (by omega)
      have hdiv : buf.length / stride = (buf.length - stride) / stride + 1 := by
        rw [Nat.div_eq_sub_div hs hle]
      refine ⟨buf.take stride :: l, ?_, ?_, ?_, ?_⟩
      · simp [readChunks, hle, h1]
      · simp [h2, hlen, hdiv]
      · rw [List.flatten_cons, h3, hlen, hdiv, Nat.mul_add, Nat.mul_one, Nat.add_comm,
          List.take_add]
      · intro ip hip
        rcases List.mem_cons.mp hip with rfl | hip
        · simp [hle]
        · exact h4 ip hip
    · have hlt : buf.length < stride := by omega
      refine ⟨[], ?_, ?_, ?_, ?_⟩
      · simp [readChunks, hle]
      · simp [Nat.div_eq_of_lt hlt]
      · simp [Nat.div_eq_of_lt hlt]
      · simp

/-- What the encoder returns for a `[]net.IP`. -/
theorem coerce_ipSlice (name : String) (hty : jailParamType name = some .ipSliceType)
    (v : GoVal) (l : List (List Byte)) (hv : (deref v).val = .ipSlice l) :
    jailParamTypeCoerce name v =
      .ok (if l.flatten.length > 0 then some l.flatten else none, l.flatten.length) := by
  simp only [jailParamTypeCoerce, hty, hv, foldl_append_eq_flatten, List.nil_append]
  split
  · rfl
  · have h0 : l.flatten.length = 0 := by omega
    simp [h0]

/-- A list of 2^29 four-byte addresses cannot be decoded: its length does not fit a C `int`. -/
theorem iplist_too_long (l : List (List Byte)) (target : GoVal)
    (hw : ∀ ip ∈ l, ip.length = 4) (hn : l.length = 2 ^ 29) :
    encodeThenDecode "ip4.addr" (.ipSlice l) target = .error .panic := by
  have hlen := length_flatten_of_width 4 l hw
  have hty : jailParamType "ip4.addr" = some .ipSliceType := by decide
  have hl : l.flatten.length = 2147483648 := by omega
  have hc : cInt (2147483648 % 2 ^ 64) = -2147483648 := by decide
  rw [encodeThenDecode, coerce_ipSlice "ip4.addr" hty (.ipSlice l) l rfl]
  simp only [hl, jailParamTypeExtract, hty, hc, GoBytes]
  simp

/-! ## Lemmas: binding lists -/

/-- A bound name stays bound through `bindOutput`. -/
theorem bindOutput_bound (k : Kernel) (jpps : jailParamList) (name n : String)
    (h : bound jpps n) : bound (bindOutput k jpps name).2 n := by
  unfold bound at h ⊢
  unfold bindOutput
  simp only []
  split
  · simpa using h
  · split
    · by_cases hn : n = name
      · subst hn; simp [List.lookup]
      · have hb : (n == name) = false := by simpa using hn
        simp [List.lookup, hb, h]
    · by_cases hn : n = name
      · subst hn; simp [List.lookup]
      · have hb : (n == name) = false := by simpa using hn
        simp [List.lookup, hb, h]

/-- A name is bound after a `bindOutput` that returned no error. -/
theorem bindOutput_ok_bound (k : Kernel) (jpps : jailParamList) (name : String)
    (h : (bindOutput k jpps name).1 = .ok ()) : bound (bindOutput k jpps name).2 name := by
  unfold bound
  unfold bindOutput at h ⊢
  simp only [] at h ⊢
  split at h
  · simp at h
  · split at h
    · simp at h
    · rename_i h1 _ _ h2
      simp [h1, h2, List.lookup]

/-- A bound name stays bound through `bindOutputs`. -/
theorem bindOutputs_bound (k : Kernel) (names : List String) (jpps : jailParamList) (n : String)
    (h : bound jpps n) : bound (bindOutputs k jpps names).2 n := by
  induction names generalizing jpps with
  | nil => simpa [bindOutputs] using h
  | cons name rest ih =>
    have h1 := bindOutput_bound k jpps name n h
    unfold bindOutputs
    cases hb : bindOutput k jpps name with
    | mk r jpps1 =>
      rw [hb] at h1
      cases r with
      | error f => simpa using h1
      | ok u => simpa using ih jpps1 h1

/-- All names are bound after a `bindOutputs` that returned no error. -/
theorem bindOutputs_ok_bound (k : Kernel) (names : List String) (jpps : jailParamList)
    (h : (bindOutputs k jpps names).1 = .ok ()) :
    ∀ n ∈ names, bound (bindOutputs k jpps names).2 n := by
  induction names generalizing jpps with
  | nil => simp
  | cons name rest ih =>
    have h1 := bindOutput_ok_bound k jpps name
    unfold bindOutputs at h ⊢
    cases hb : bindOutput k jpps name with
    | mk r jpps1 =>
      rw [hb] at h h1
      cases r with
      | error f => simp at h
      | ok u =>
        simp only [] at h ⊢
        intro n hn
        rcases List.mem_cons.mp hn with rfl | hn
        · exact bindOutputs_bound k rest jpps1 _ (h1 rfl)
        · exact ih jpps1 h n hn

/-- Being bound only depends on `nameMapping`. -/
theorem bound_of_nameMapping (a b : jailParamList) (n : String)
    (h : a.nameMapping = b.nameMapping) (hb : bound a n) : bound b n := by
  unfold bound at hb ⊢
  rw [← h]; exact hb

/-- On a bound name `bindOutput` returns the duplicate error and changes nothing. -/
theorem bindOutput_duplicate (k : Kernel) (jpps : jailParamList) (name : String)
    (h : bound jpps name) :
    bindOutput k jpps name = (.error (.err (.bindTwice name)), jpps) := by
  unfold bound at h
  obtain ⟨params, nm⟩ := jpps
  cases nm with
  | none => simp at h
  | some m =>
    simp only [Option.getD_some] at h
    obtain ⟨idx, hidx⟩ := Option.isSome_iff_exists.mp h
    simp only [bindOutput, Option.getD_some, hidx]

/-- On a bound name `bindParameter` never succeeds and changes nothing; it returns an
error whenever the encoder does not panic. -/
theorem bindParameter_duplicate (k : Kernel) (jpps : jailParamList) (name : String) (v : GoVal)
    (h : bound jpps name) :
    (bindParameter k jpps name v).2 = jpps ∧
    (bindParameter k jpps name v).1 ≠ .ok () ∧
    (jailParamTypeCoerce name v ≠ .error .panic →
      jailParamTypeCoerce name v ≠ .error .outOfFuel →
      ∃ e, (bindParameter k jpps name v).1 = .error (.err e)) := by
  unfold bindParameter
  cases hc : jailParamTypeCoerce name v with
  | error f =>
    refine ⟨rfl, by simp, ?_⟩
    intro h1 h2
    cases f with
    | err e => exact ⟨e, rfl⟩
    | panic => exact absurd rfl h1
    | outOfFuel => exact absurd rfl h2
  | ok r =>
    obtain ⟨p, n⟩ := r
    rw [bindOutput_duplicate k jpps name h]
    exact ⟨rfl, by simp, fun _ _ => ⟨_, rfl⟩⟩

/-- The invariant `NamesUnique` is kept by `bindOutput`, also when `jailparam_init` fails. -/
theorem bindOutput_namesUnique (k : Kernel) (jpps : jailParamList) (name : String)
    (h : NamesUnique jpps) : NamesUnique (bindOutput k jpps name).2 := by
  by_cases hb : bound jpps name
  · rw [bindOutput_duplicate k jpps name hb]; exact h
  · have hnot : name ∉ boundNames jpps := fun hm => hb (h.2 name hm)
    have hmono := bindOutput_bound k jpps name
    have hlk : (jpps.nameMapping.getD []).lookup name = none := by
      unfold bound at hb
      cases hx : (jpps.nameMapping.getD []).lookup name with
      | none => rfl
      | some i => rw [hx] at hb; simp at hb
    cases hi : jailparam_init k name with
    | error code =>
      have hres : (bindOutput k jpps name).2 =
          { jpps with nameMapping := some ((name, jpps.params.length) :: jpps.nameMapping.getD []) } := by
        simp only [bindOutput, hlk, hi]
      refine ⟨?_, ?_⟩
      · rw [hres]; exact h.1
      · intro n hn
        apply hmono n
        apply h.2 n
        rw [hres] at hn; exact hn
    | ok jpp =>
      have hname : jpp.jp_name = name := by
        unfold jailparam_init at hi
        split at hi
        · simp at hi
        · simp only [Except.ok.injEq] at hi
          rw [← hi]
      have hres : (bindOutput k jpps name).2 =
          { params := jpps.params ++ [jpp],
            nameMapping := some ((name, jpps.params.length) :: jpps.nameMapping.getD []) } := by
        simp only [bindOutput, hlk, hi]
      have hok : (bindOutput k jpps name).1 = .ok () := by
        simp only [bindOutput, hlk, hi]
      have hnames : boundNames (bindOutput k jpps name).2 = boundNames jpps ++ [name] := by
        rw [hres]; simp [boundNames, hname]
      refine ⟨?_, ?_⟩
      · rw [hnames, List.nodup_append]
        refine ⟨h.1, by simp, ?_⟩
        intro a ha hb2
        simp only [List.mem_singleton] at hb2
        subst hb2
        exact hnot ha
      · intro n hn
        rw [hnames, List.mem_append, List.mem_singleton] at hn
        rcases hn with hn | rfl
        · exact hmono n (h.2 n hn)
        · exact bindOutput_ok_bound k jpps n hok

/-- The invariant `NamesUnique` is kept by `bindParameter`. -/
theorem bindParameter_namesUnique (k : Kernel) (jpps : jailParamList) (name : String)
    (v : GoVal) (h : NamesUnique jpps) : NamesUnique (bindParameter k jpps name v).2 := by
  have ho := bindOutput_namesUnique k jpps name h
  unfold bindParameter
  cases hc : jailParamTypeCoerce name v with
  | error f => exact h
  | ok r =>
    obtain ⟨ptr, len⟩ := r
    simp only []
    cases hb : bindOutput k jpps name with
    | mk res jpps1 =>
      rw [hb] at ho
      cases res with
      | error f => exact ho
      | ok u =>
        simp only []
        cases hl : jpps1.params.getLast? with
        | none => exact ho
        | some jpp =>
          simp only []
          have hsplit : jpps1.params = jpps1.params.dropLast ++ [jpp] := by
            have hne : jpps1.params ≠ [] := by
              intro h0; rw [h0] at hl; simp at hl
            rw [List.getLast?_eq_getLast _ hne] at hl
            simp only [Option.some.injEq] at hl
            rw [← hl, List.dropLast_append_getLast hne]
          have hnames : boundNames
              { jpps1 with
                params := jpps1.params.dropLast ++
                  [{ jpp with
                      jp_value := ptr
                      jp_valuelen := len % 2 ^ 64
                      jp_flags := jpp.jp_flags ||| JP_RAWVALUE }] } = boundNames jpps1 := by
            unfold boundNames
            conv_rhs => rw [hsplit]
            simp
          refine ⟨?_, ?_⟩
          · rw [hnames]; exact ho.1
          · intro n hn
            rw [hnames] at hn
            exact bound_of_nameMapping jpps1 _ n rfl (ho.2 n hn)

/-- The invariant `NamesUnique` is kept by every sequence of calls. -/
theorem runCalls_namesUnique (k : Kernel) (calls : List BindCall) (jpps : jailParamList)
    (h : NamesUnique jpps) : NamesUnique (runCalls k jpps calls) := by
  induction calls generalizing jpps with
  | nil => exact h
  | cons c rest ih =>
    cases c with
    | output name => exact ih _ (bindOutput_namesUnique k jpps name h)
    | parameter name value => exact ih _ (bindParameter_namesUnique k jpps name value h)

/-- After any sequence of calls on an empty list no two bindings carry the same name. -/
theorem runCalls_nodup (k : Kernel) (calls : List BindCall) :
    (boundNames (runCalls k { params := [], nameMapping := none } calls)).Nodup :=
  (runCalls_namesUnique k calls _ ⟨by simp [boundNames], by simp [boundNames]⟩).1

/-! ## Lemmas: decoding after a successful get -/

/-- Decoding a String-typed parameter into a string variable returns no error. -/
theorem extract_string_no_err (name : String) (hty : jailParamType name = some .stringType)
    (val : Jailparam) (s : List Byte) (e : JailError) :
    jailParamTypeExtract name val (.ptr (.str s)) ≠ .error (.err e) := by
  simp only [jailParamTypeExtract, hty, deref, derefFrom]
  cases hg : GoBytes val.jp_value (cInt val.jp_valuelen) with
  | error f =>
    intro h
    simp only [Except.error.injEq] at h
    exact GoBytes_no_err _ _ e (by rw [hg, h])
  | ok b => simp

/-- Decoding "ip4.addr" into a `[]net.IP` variable returns no error. -/
theorem extract_ip4_no_err (val : Jailparam) (l : List (List Byte)) (e : JailError) :
    jailParamTypeExtract "ip4.addr" val (.ptr (.ipSlice l)) ≠ .error (.err e) := by
  have hty : jailParamType "ip4.addr" = some .ipSliceType := by decide
  simp only [jailParamTypeExtract, hty, deref, derefFrom]
  cases hg : GoBytes val.jp_value (cInt val.jp_valuelen) with
  | error f =>
    intro h
    simp only [Except.error.injEq] at h
    exact GoBytes_no_err _ _ e (by rw [hg, h])
  | ok b =>
    simp only [if_true]
    cases readChunks 4 (b.length + 1) b <;> simp

/-- On a bound name `grabOutput` returns no error unless the decoder does. -/
theorem grabOutput_no_err (jpps : jailParamList) (name : String) (out : GoVal) (e : JailError)
    (hb : bound jpps name)
    (hx : ∀ val, jailParamTypeExtract name val out ≠ .error (.err e)) :
    grabOutput jpps name out ≠ .error (.err e) := by
  unfold bound at hb
  unfold grabOutput
  cases hl : (jpps.nameMapping.getD []).lookup name with
  | none => rw [hl] at hb; simp at hb
  | some idx =>
    simp only []
    cases jpps.params.get? idx with
    | none => simp
    | some jpp => exact hx jpp

/-! ## C1: string round trip -/

/-- C1 (amended): for every non-empty string `s` of fewer than 2^31 bytes whose
first and last bytes are not 0x00, encoding `s` for a String-typed parameter and
decoding the resulting bytes into a string variable succeeds and yields exactly `s`. -/
theorem string_roundtrip (name : String) (hty : jailParamType name = some .stringType)
    (v target : GoVal) (s old : List Byte)
    (hv : (deref v).val = .str s) (ht : deref target = ⟨.str old, true⟩)
    (hne : s ≠ []) (hlen : s.length < 2 ^ 31)
    (hhead : s.head? ≠ some 0) (hlast : s.getLast? ≠ some 0) :
    encodeThenDecode name v target = .ok (.str s) := by
  cases s with
  | nil => exact absurd rfl hne
  | cons a t =>
    have hg := GoBytes_whole (a :: t) hlen
    have htrim := trimNul_eq_self (a :: t) hhead hlast
    simp only [encodeThenDecode, jailParamTypeCoerce, jailParamTypeExtract, hty, hv, ht, hg, htrim]
    rfl

/-- C1, witness of the amended statement: the string "example" sent for "name". -/
theorem string_roundtrip_witness :
    encodeThenDecode "name" (.str [101, 120, 97, 109, 112, 108, 101]) (.ptr (.str [])) =
      .ok (.str [101, 120, 97, 109, 112, 108, 101]) :=
  string_roundtrip "name" (by decide) (.str [101, 120, 97, 109, 112, 108, 101]) (.ptr (.str []))
    [101, 120, 97, 109, 112, 108, 101] [] rfl rfl (by decide) (by decide) (by decide) (by decide)

/-- C1 as stated fails: a string that begins with 0x00, and one that ends with
0x00, both come back as the one-byte string "a". -/
theorem string_roundtrip_counterexample :
    encodeThenDecode "name" (.str [0, 97]) (.ptr (.str [])) = .ok (.str [97]) ∧
    encodeThenDecode "name" (.str [0, 97]) (.ptr (.str [])) ≠ .ok (.str [0, 97]) ∧
    encodeThenDecode "name" (.str [97, 0]) (.ptr (.str [])) = .ok (.str [97]) ∧
    encodeThenDecode "name" (.str [97, 0]) (.ptr (.str [])) ≠ .ok (.str [97, 0]) := by
  decide

/-! ## C2: integer round trip -/

/-- The part of the integer round trip that the code keeps: a Go `int` `v` in the
range of a C `int` (-2^31 ≤ v < 2^31), sent through a pointer, comes back as `v`,
because on a little-endian host the 4 bytes the decoder loads are the low half of
the 8 bytes the encoder hands over. -/
theorem int_roundtrip (name : String) (hty : jailParamType name = some .intType)
    (v old : Int) (hlo : -2 ^ 31 ≤ v) (hhi : v < 2 ^ 31) :
    jailParamTypeCoerce name (.ptr (.int v)) = .ok (some (intBytes 8 v), 8) ∧
    encodeThenDecode name (.ptr (.int v)) (.ptr (.int old)) = .ok (.int v) ∧
    ∀ (tail : List Byte) (len flags : Nat),
      jailParamTypeExtract name
        { jp_name := name, jp_value := some ((intBytes 8 v).take 4 ++ tail),
          jp_valuelen := len, jp_flags := flags } (.ptr (.int old)) = .ok (.int v) := by
  have hdec : ∀ (tail : List Byte) (len flags : Nat),
      jailParamTypeExtract name
        { jp_name := name, jp_value := some ((intBytes 8 v).take 4 ++ tail),
          jp_valuelen := len, jp_flags := flags } (.ptr (.int old)) = .ok (.int v) := by
    intro tail len flags
    simp only [jailParamTypeExtract, hty, deref, derefFrom, isIntKind,
      readCInt_intBytes8 v tail hlo hhi, setInt, if_true]
  refine ⟨?_, ?_, hdec⟩
  · simp only [jailParamTypeCoerce, hty, deref, derefFrom, isIntKind, if_true]
  · have h := hdec ((intBytes 8 v).drop 4) (8 % 2 ^ 64) JP_RAWVALUE
    rw [List.take_append_drop] at h
    simp only [encodeThenDecode, jailParamTypeCoerce, hty, deref, derefFrom, isIntKind, if_true]
    exact h

/-- The integer 42 sent for "jid" comes back as 42. -/
theorem int_roundtrip_witness :
    jailParamTypeCoerce "jid" (.ptr (.int 42)) = .ok (some (intBytes 8 42), 8) ∧
    encodeThenDecode "jid" (.ptr (.int 42)) (.ptr (.int 0)) = .ok (.int 42) ∧
    ∀ (tail : List Byte) (len flags : Nat),
      jailParamTypeExtract "jid"
        { jp_name := "jid", jp_value := some ((intBytes 8 42).take 4 ++ tail),
          jp_valuelen := len, jp_flags := flags } (.ptr (.int 0)) = .ok (.int 42) :=
  int_roundtrip "jid" (by decide) 42 0 (by decide) (by decide)

/-- C2, the code at the failing inputs: for the Go `int` 42 behind a pointer the
encoder hands over 8 bytes, where a C `int` behind a pointer (the "lastjid" of
`EnumerateJails`) gives 4, and the decoder loads 4 bytes: a 4-byte buffer decodes
to 42. The Go `int` 2^32 is handed over as 00 00 00 00 01 00 00 00 and decodes
to 0, not to 2^32. -/
theorem int_width_mismatch :
    jailParamTypeCoerce "jid" (.ptr (.int 42)) = .ok (some [42, 0, 0, 0, 0, 0, 0, 0], 8) ∧
    jailParamTypeCoerce "lastjid" (.ptr (.int32 42)) = .ok (some [42, 0, 0, 0], 4) ∧
    jailParamTypeExtract "jid"
      { jp_name := "jid", jp_value := some [42, 0, 0, 0], jp_valuelen := 4, jp_flags := 0 }
      (.ptr (.int 0)) = .ok (.int 42) ∧
    jailParamTypeCoerce "jid" (.ptr (.int 4294967296)) =
      .ok (some [0, 0, 0, 0, 1, 0, 0, 0], 8) ∧
    encodeThenDecode "jid" (.ptr (.int 4294967296)) (.ptr (.int 7)) = .ok (.int 0) ∧
    encodeThenDecode "jid" (.ptr (.int 4294967296)) (.ptr (.int 7)) ≠
      .ok (.int 4294967296) := by
  decide

/-! ## C3: address-list round trip -/

/-- C3 (amended): for every list `l` of fewer than 2^29 four-byte IPv4 addresses,
the empty list included, encoding `l` for "ip4.addr" and decoding the resulting
buffer into a `[]net.IP` variable yields `l`, entry by entry and in the same order. -/
theorem iplist_roundtrip (l old : List (List Byte)) (hw : ∀ ip ∈ l, ip.length = 4)
    (hn : l.length < 2 ^ 29) :
    encodeThenDecode "ip4.addr" (.ipSlice l) (.ptr (.ipSlice old)) = .ok (.ipSlice l) := by
  have hlen := length_flatten_of_width 4 l hw
  have hlt : l.flatten.length < 2 ^ 31 := by omega
  have hchunks := readChunks_flatten 4 (by decide) l hw (l.flatten.length + 1) (by omega)
  have hty : jailParamType "ip4.addr" = some .ipSliceType := by decide
  rw [encodeThenDecode, coerce_ipSlice "ip4.addr" hty (.ipSlice l) l rfl]
  by_cases hpos : l.flatten.length > 0
  · simp only [hpos, if_true, jailParamTypeExtract, hty, GoBytes_whole _ hlt, hchunks,
      deref, derefFrom]
  · have h0 : l.flatten.length = 0 := by omega
    have hl : l = [] := by
      cases l with
      | nil => rfl
      | cons a t => rw [h0] at hlen; simp at hlen
    subst hl
    simp [jailParamTypeExtract, hty, GoBytes, cInt, toSigned, readChunks, deref, derefFrom]

/-- C3, witness of the amended statement: the list [127.0.0.1, 10.0.0.1]. -/
theorem iplist_roundtrip_witness :
    encodeThenDecode "ip4.addr" (.ipSlice [[127, 0, 0, 1], [10, 0, 0, 1]]) (.ptr (.ipSlice [])) =
      .ok (.ipSlice [[127, 0, 0, 1], [10, 0, 0, 1]]) :=
  iplist_roundtrip [[127, 0, 0, 1], [10, 0, 0, 1]] [] (by decide) (by decide)

/-- C3 as stated fails: a list of 2^29 copies of 127.0.0.1 is encoded on 2^31
bytes, `C.int` of that length is negative and decoding panics in `C.GoBytes`. -/
theorem iplist_roundtrip_counterexample :
    encodeThenDecode "ip4.addr" (.ipSlice (List.replicate 536870912 [127, 0, 0, 1]))
      (.ptr (.ipSlice [])) = .error .panic :=
  iplist_too_long _ _ (fun _ h => by rw [List.eq_of_mem_replicate h]; rfl)
    (List.length_replicate _ _)

/-! ## C4: string wire format -/

/-- C4 (amended): for every non-empty string `s`, encoding `s` for a String-typed
parameter succeeds and produces exactly the bytes of `s`, with no terminator byte,
so the encoded length is `len(s)`. -/
theorem string_encoding (name : String) (hty : jailParamType name = some .stringType)
    (v : GoVal) (s : List Byte) (hv : (deref v).val = .str s) (hne : s ≠ []) :
    jailParamTypeCoerce name v = .ok (some s, s.length) := by
  cases s with
  | nil => exact absurd rfl hne
  | cons a t => simp only [jailParamTypeCoerce, hty, hv]

/-- C4, witness of the amended statement: "example" is encoded on its own 7 bytes. -/
theorem string_encoding_witness :
    jailParamTypeCoerce "name" (.str [101, 120, 97, 109, 112, 108, 101]) =
      .ok (some [101, 120, 97, 109, 112, 108, 101], 7) :=
  string_encoding "name" (by decide) (.str [101, 120, 97, 109, 112, 108, 101])
    [101, 120, 97, 109, 112, 108, 101] rfl (by decide)

/-- C4 as stated fails: "a" is encoded on the single byte 0x61, not on the two
bytes 0x61 0x00. -/
theorem string_encoding_counterexample :
    jailParamTypeCoerce "name" (.str [97]) = .ok (some [97], 1) ∧
    jailParamTypeCoerce "name" (.str [97]) ≠ .ok (some [97, 0], 2) := by
  decide

/-! ## C5: address-list stride on encode -/

/-- C5 (amended): a list of addresses encoded for an address-list parameter is the
concatenation, in order and with no prefix, of the entries' own bytes, so its
length is the sum of the entries' widths, which is `4*n` when each of the `n`
entries is in 4-byte form; the empty list encodes to a nil pointer with length 0
without error. -/
theorem iplist_encoding (name : String) (hty : jailParamType name = some .ipSliceType)
    (v : GoVal) (l : List (List Byte)) (hv : (deref v).val = .ipSlice l) :
    jailParamTypeCoerce name v =
      .ok (if l.flatten.length > 0 then some l.flatten else none, l.flatten.length) ∧
    l.flatten.length = (l.map List.length).sum ∧
    ((∀ ip ∈ l, ip.length = 4) → l.flatten.length = 4 * l.length) ∧
    jailParamTypeCoerce name (.ipSlice []) = .ok (none, 0) :=
  ⟨coerce_ipSlice name hty v l hv, List.length_flatten l, length_flatten_of_width 4 l,
    by simpa using coerce_ipSlice name hty (.ipSlice []) [] rfl⟩

/-- C5, witness of the amended statement: [127.0.0.1, 10.0.0.1] in 4-byte form is
encoded on 8 bytes. -/
theorem iplist_encoding_witness :
    jailParamTypeCoerce "ip4.addr" (.ipSlice [[127, 0, 0, 1], [10, 0, 0, 1]]) =
      .ok (some [127, 0, 0, 1, 10, 0, 0, 1], 8) ∧
    ([[127, 0, 0, 1], [10, 0, 0, 1]] : List (List Byte)).flatten.length = 4 * 2 :=
  ⟨(iplist_encoding "ip4.addr" (by decide) (.ipSlice [[127, 0, 0, 1], [10, 0, 0, 1]])
      [[127, 0, 0, 1], [10, 0, 0, 1]] rfl).1,
    (iplist_encoding "ip4.addr" (by decide) (.ipSlice [[127, 0, 0, 1], [10, 0, 0, 1]])
      [[127, 0, 0, 1], [10, 0, 0, 1]] rfl).2.2.1 (by decide)⟩

/-- C5 as stated fails: the one-entry list holding 127.0.0.1 in 16-byte form is
encoded on 16 bytes, not on 4. -/
theorem iplist_encoding_counterexample :
    jailParamTypeCoerce "ip4.addr"
        (.ipSlice [[0, 0, 0, 0, 0, 0, 0, 0, 0, 0, 255, 255, 127, 0, 0, 1]]) =
      .ok (some [0, 0, 0, 0, 0, 0, 0, 0, 0, 0, 255, 255, 127, 0, 0, 1], 16) ∧
    16 ≠ 4 * [[(0 : Byte), 0, 0, 0, 0, 0, 0, 0, 0, 0, 255, 255, 127, 0, 0, 1]].length := by
  decide

/-! ## C6: address-list buffer of unaligned length -/

/-- C6 (amended): for every buffer of fewer than 2^31 bytes whose length is not a
multiple of the stride (4 for "ip4.addr", 16 for "ip6.addr"), decoding it into a
`[]net.IP` variable returns no error: it yields the `len / stride` complete leading
blocks, each `stride` bytes wide, and drops the remaining bytes. -/
theorem iplist_decode_unaligned (name : String) (stride : Nat)
    (hname : (name = "ip4.addr" ∧ stride = 4) ∨ (name = "ip6.addr" ∧ stride = 16))
    (buf : List Byte) (old : List (List Byte)) (flags : Nat)
    (hlen : buf.length < 2 ^ 31) (hrem : ¬ stride ∣ buf.length) :
    ∃ l, jailParamTypeExtract name
        { jp_name := name, jp_value := some buf, jp_valuelen := buf.length, jp_flags := flags }
        (.ptr (.ipSlice old)) = .ok (.ipSlice l) ∧
      l.length = buf.length / stride ∧
      l.flatten = buf.take (stride * (buf.length / stride)) ∧
      ∀ ip ∈ l, ip.length = stride := by
  have hs : 0 < stride := by rcases hname with ⟨_, h⟩ | ⟨_, h⟩ <;> omega
  obtain ⟨l, h1, h2, h3, h4⟩ := readChunks_fuel stride hs (buf.length + 1) buf (by omega)
  refine ⟨l, ?_, h2, h3, h4⟩
  have hg := GoBytes_whole buf hlen
  rw [Nat.mod_eq_of_lt (by omega : buf.length < 2 ^ 64)] at hg
  rcases hname with ⟨hn, hst⟩ | ⟨hn, hst⟩
  · subst hn hst
    have hty : jailParamType "ip4.addr" = some .ipSliceType := by decide
    simp only [jailParamTypeExtract, hty, hg, if_true, h1, deref, derefFrom]
  · subst hn hst
    have hty : jailParamType "ip6.addr" = some .ipSliceType := by decide
    have hne : ¬ ("ip6.addr" = "ip4.addr") := by decide
    simp only [jailParamTypeExtract, hty, hg, if_true, if_neg hne, h1, deref, derefFrom]

/-- C6, witness of the amended statement: a 5-byte buffer decoded for "ip4.addr". -/
theorem iplist_decode_unaligned_witness :
    ∃ l, jailParamTypeExtract "ip4.addr"
        { jp_name := "ip4.addr", jp_value := some [127, 0, 0, 1, 10],
          jp_valuelen := ([127, 0, 0, 1, 10] : List Byte).length, jp_flags := 0 }
        (.ptr (.ipSlice [])) = .ok (.ipSlice l) ∧
      l.length = ([127, 0, 0, 1, 10] : List Byte).length / 4 ∧
      l.flatten = ([127, 0, 0, 1, 10] : List Byte).take
        (4 * (([127, 0, 0, 1, 10] : List Byte).length / 4)) ∧
      ∀ ip ∈ l, ip.length = 4 :=
  iplist_decode_unaligned "ip4.addr" 4 (Or.inl ⟨rfl, rfl⟩) [127, 0, 0, 1, 10] [] 0
    (by decide) (by decide)

/-- C6 as stated fails: the 5-byte buffer 7f 00 00 01 0a, whose length is not a
multiple of 4, decodes for "ip4.addr" to the list [127.0.0.1] without an error. -/
theorem iplist_decode_unaligned_counterexample :
    jailParamTypeExtract "ip4.addr"
        { jp_name := "ip4.addr", jp_value := some [127, 0, 0, 1, 10], jp_valuelen := 5,
          jp_flags := 0 }
        (.ptr (.ipSlice [])) = .ok (.ipSlice [[127, 0, 0, 1]]) ∧
    ¬ 4 ∣ 5 := by
  decide

/-! ## C7: type mismatch on decode -/

/-- C7, the code at the failing input: decoding the address list "ip4.addr" into a
string variable, or into an `int` variable, reports success and leaves the variable
as it was, whereas a `bool` variable for the string "name" is refused with an error. -/
theorem extract_iplist_into_string :
    jailParamTypeExtract "ip4.addr"
        { jp_name := "ip4.addr", jp_value := some [127, 0, 0, 1], jp_valuelen := 4,
          jp_flags := 0 }
        (.ptr (.str [104, 105])) = .ok (.str [104, 105]) ∧
    jailParamTypeExtract "ip4.addr"
        { jp_name := "ip4.addr", jp_value := some [127, 0, 0, 1], jp_valuelen := 4,
          jp_flags := 0 }
        (.ptr (.int 7)) = .ok (.int 7) ∧
    jailParamTypeExtract "name"
        { jp_name := "name", jp_value := some [97, 0], jp_valuelen := 2, jp_flags := 0 }
        (.ptr (.bool false)) = .error (.err .outMustBeString) := by
  decide

/-! ## C8: unknown parameter -/

/-- C8: for every name that is not a key of the registry, `jailParamType` returns
no descriptor, `jailParamTypeCoerce` returns an error for every value,
`jailParamTypeExtract` returns an error for every buffer and target, and
`bindParameter` returns an error for every list and value and leaves the list
unchanged. -/
theorem unknown_parameter (name : String) (h : name ∉ paramTypeMapping.map Prod.fst) :
    jailParamType name = none ∧
    (∀ v, jailParamTypeCoerce name v = .error (.err (.invalidParameter name))) ∧
    (∀ val out, jailParamTypeExtract name val out = .error (.err (.unknownParameter name))) ∧
    (∀ k jpps v,
      bindParameter k jpps name v = (.error (.err (.invalidParameter name)), jpps)) := by
  have hty : jailParamType name = none := by
    unfold jailParamType
    rw [List.lookup_eq_none_iff]
    intro p hp
    rw [bne_iff_ne]
    intro hname
    exact h (List.mem_map.mpr ⟨p, hp, hname.symm⟩)
  refine ⟨hty, ?_, ?_, ?_⟩
  · intro v; simp only [jailParamTypeCoerce, hty]
  · intro val out; simp only [jailParamTypeExtract, hty]
  · intro k jpps v; simp only [bindParameter, jailParamTypeCoerce, hty]

/-- C8, witness: the name "bogus.param" is not registered. -/
theorem unknown_parameter_witness :
    "bogus.param" ∉ paramTypeMapping.map Prod.fst ∧
    jailParamType "bogus.param" = none ∧
    (∀ v, jailParamTypeCoerce "bogus.param" v =
      .error (.err (.invalidParameter "bogus.param"))) ∧
    (∀ val out, jailParamTypeExtract "bogus.param" val out =
      .error (.err (.unknownParameter "bogus.param"))) ∧
    (∀ k jpps v, bindParameter k jpps "bogus.param" v =
      (.error (.err (.invalidParameter "bogus.param")), jpps)) :=
  ⟨by decide, unknown_parameter "bogus.param" (by decide)⟩

/-! ## C9: duplicate binding -/

/-- C9, the code at the failing input: on a list in which "name" is bound,
`bindOutput` of "name" and `bindParameter` of "name" with the value "a" return the
duplicate-binding error and leave the list unchanged, but `bindParameter` of "name"
with the empty string panics in the encoder instead of returning an error. -/
theorem bindParameter_duplicate_panics (k : Kernel) :
    bound { params := [⟨"name", none, 0, 0⟩], nameMapping := some [("name", 0)] } "name" ∧
    bindOutput k { params := [⟨"name", none, 0, 0⟩], nameMapping := some [("name", 0)] } "name" =
      (.error (.err (.bindTwice "name")),
        { params := [⟨"name", none, 0, 0⟩], nameMapping := some [("name", 0)] }) ∧
    bindParameter k { params := [⟨"name", none, 0, 0⟩], nameMapping := some [("name", 0)] }
        "name" (.str [97]) =
      (.error (.err (.bindTwice "name")),
        { params := [⟨"name", none, 0, 0⟩], nameMapping := some [("name", 0)] }) ∧
    bindParameter k { params := [⟨"name", none, 0, 0⟩], nameMapping := some [("name", 0)] }
        "name" (.str []) =
      (.error .panic,
        { params := [⟨"name", none, 0, 0⟩], nameMapping := some [("name", 0)] }) := by
  refine ⟨rfl, rfl, rfl, rfl⟩

/-! ## C10: Refresh is all-or-nothing -/

/-- C10: for every handle and every behaviour of libjail and the kernel, if
`Refresh` returns an error then every cached field of the handle (jid, parent,
name, hostname, path, cpusetId, addrs) has the value it had before the call. -/
theorem Refresh_error_leaves_cache (k : Kernel) (j : Jail) (e : JailError)
    (h : (Refresh k j).1 = .error (.err e)) : (Refresh k j).2 = j := by
  unfold Refresh at h ⊢
  simp only [] at h ⊢
  cases hbp : bindParameter k { params := [], nameMapping := none } "jid" (.ptr (.int j.jid)) with
  | mk r1 jpps1 =>
  rw [hbp] at h
  cases r1 with
  | error f => rfl
  | ok u1 =>
  simp only [] at h ⊢
  have hbo := bindOutputs_ok_bound k
    ["parent", "name", "host.hostname", "path", "cpuset.id", "ip4.addr"] jpps1
  cases hbs : bindOutputs k jpps1
      ["parent", "name", "host.hostname", "path", "cpuset.id", "ip4.addr"] with
  | mk r2 jpps2 =>
  rw [hbs] at h hbo
  cases r2 with
  | error f => rfl
  | ok u2 =>
  simp only [] at h ⊢
  have hbo := hbo rfl
  cases hp : jpps2.params with
  | nil => rfl
  | cons p ps =>
  rw [hp] at h
  simp only [] at h ⊢
  cases hg : k.get (p :: ps) 0 with
  | error code => rfl
  | ok res =>
  obtain ⟨jid, resp⟩ := res
  rw [hg] at h
  simp only [] at h ⊢
  exfalso
  have hb : ∀ n ∈ ["parent", "name", "host.hostname", "path", "cpuset.id", "ip4.addr"],
      bound { params := List.map (applyResponse resp) (p :: ps),
              nameMapping := jpps2.nameMapping } n :=
    fun n hn => bound_of_nameMapping jpps2 _ n rfl (hbo n hn)
  have g1 := grabOutput_no_err _ "name" (.ptr (.str j.name)) e (hb _ (by decide))
    (fun val => extract_string_no_err "name" (by decide) val j.name e)
  have g2 := grabOutput_no_err _ "host.hostname" (.ptr (.str j.hostname)) e (hb _ (by decide))
    (fun val => extract_string_no_err "host.hostname" (by decide) val j.hostname e)
  have g3 := grabOutput_no_err _ "path" (.ptr (.str j.path)) e (hb _ (by decide))
    (fun val => extract_string_no_err "path" (by decide) val j.path e)
  have g4 := grabOutput_no_err _ "ip4.addr" (.ptr (.ipSlice j.addrs)) e (hb _ (by decide))
    (fun val => extract_ip4_no_err val j.addrs e)
  split at h
  · rename_i f hf
    simp only [Except.error.injEq] at h
    exact g1 (by rw [hf, h])
  · split at h
    · rename_i f hf
      simp only [Except.error.injEq] at h
      exact g2 (by rw [hf, h])
    · split at h
      · rename_i f hf
        simp only [Except.error.injEq] at h
        exact g3 (by rw [hf, h])
      · split at h
        · rename_i f hf
          simp only [Except.error.injEq] at h
          exact g4 (by rw [hf, h])
        · simp at h

/-- C10, witness: a kernel whose get call fails with ENOENT (errno 2). -/
theorem Refresh_error_leaves_cache_witness :
    (Refresh ⟨fun _ => .ok (0, 0), fun _ _ => .error 2⟩ ⟨5, 0, [106], [104], [47], 1, []⟩).1 =
      .error (.err (.errno 2)) ∧
    (Refresh ⟨fun _ => .ok (0, 0), fun _ _ => .error 2⟩ ⟨5, 0, [106], [104], [47], 1, []⟩).2 =
      ⟨5, 0, [106], [104], [47], 1, []⟩ :=
  ⟨by decide, Refresh_error_leaves_cache _ _ (.errno 2) (by decide)⟩

/-! ## Lemmas: order of map iteration -/

/-- The order of iteration is one of the permutations of the entries. -/
theorem iterationOrder_mem {α : Type} (seed : Nat) (l : List α) :
    iterationOrder seed l ∈ l.permutations' := by
  unfold iterationOrder
  rw [List.getD_eq_getElem?_getD]
  cases h : (l.permutations')[seed]? with
  | none => simp
  | some o => simpa using List.getElem?_mem h

/-- A map of two entries is visited in one of two orders. -/
theorem iterationOrder_pair {α : Type} (seed : Nat) (a b : α) :
    iterationOrder seed [a, b] = [a, b] ∨ iterationOrder seed [a, b] = [b, a] := by
  have h := iterationOrder_mem seed [a, b]
  simpa [List.permutations', List.permutations'Aux] using h

/-! ## Lemmas: binding a name that is not bound yet -/

/-- What `bindOutput` does with a name that is not bound. -/
theorem bindOutput_fresh (k : Kernel) (jpps : jailParamList) (name : String)
    (h : (jpps.nameMapping.getD []).lookup name = none) :
    bindOutput k jpps name =
      match k.paramInfo name with
      | .error code =>
        (.error (.err (.errno code)),
          { jpps with nameMapping := some ((name, jpps.params.length) :: jpps.nameMapping.getD []) })
      | .ok (len, flags) =>
        (.ok (),
          { params := jpps.params ++ [⟨name, none, len, flags⟩],
            nameMapping := some ((name, jpps.params.length) :: jpps.nameMapping.getD []) }) := by
  simp only [bindOutput, h, jailparam_init]
  cases k.paramInfo name with
  | error code => rfl
  | ok i => rfl

/-- What `bindParameter` does with a value it can encode and a name that is not bound. -/
theorem bindParameter_fresh (k : Kernel) (jpps : jailParamList) (name : String) (v : GoVal)
    (ptr : Option (List Byte)) (len : Nat)
    (hc : jailParamTypeCoerce name v = .ok (ptr, len))
    (h : (jpps.nameMapping.getD []).lookup name = none) :
    bindParameter k jpps name v =
      match k.paramInfo name with
      | .error code =>
        (.error (.err (.errno code)),
          { jpps with nameMapping := some ((name, jpps.params.length) :: jpps.nameMapping.getD []) })
      | .ok (_, flags) =>
        (.ok (),
          { params := jpps.params ++ [⟨name, ptr, len % 2 ^ 64, flags ||| JP_RAWVALUE⟩],
            nameMapping := some ((name, jpps.params.length) :: jpps.nameMapping.getD []) }) := by
  simp only [bindParameter, hc, bindOutput_fresh k jpps name h]
  cases k.paramInfo name with
  | error code => rfl
  | ok i => simp

/-- The encoder on a pointer to a Go `int`. -/
theorem coerce_int_ptr (name : String) (hty : jailParamType name = some .intType) (v : Int) :
    jailParamTypeCoerce name (.ptr (.int v)) = .ok (some (intBytes 8 v), 8) := by
  simp only [jailParamTypeCoerce, hty, deref, derefFrom, isIntKind, if_true]

/-- The encoder on a non-empty string. -/
theorem coerce_str (name : String) (hty : jailParamType name = some .stringType)
    (s : List Byte) (hne : s ≠ []) :
    jailParamTypeCoerce name (.str s) = .ok (some s, s.length) := by
  cases s with
  | nil => exact absurd rfl hne
  | cons a t => simp only [jailParamTypeCoerce, hty, deref, derefFrom]

/-- The two outcomes of `SetHostname` with a non-empty hostname: an errno and an
untouched handle, or success of a kernel update of exactly the two inputs "jid" and
"host.hostname" with only `hostname` changed. -/
theorem SetHostname_outcome (s : Syscalls) (seed : Nat) (j : Jail) (h : List Byte)
    (hne : h ≠ []) :
    (∃ code, SetHostname s seed j h = (.error (.err (.errno code)), j)) ∨
    (SetHostname s seed j h = (.ok (), { j with hostname := h }) ∧
      ∃ f1 f2 r,
        (s.set [⟨"jid", some (intBytes 8 j.jid), 8, f1 ||| JP_RAWVALUE⟩,
                ⟨"host.hostname", some h, h.length % 2 ^ 64, f2 ||| JP_RAWVALUE⟩]
            JAIL_UPDATE = .ok r ∨
         s.set [⟨"host.hostname", some h, h.length % 2 ^ 64, f2 ||| JP_RAWVALUE⟩,
                ⟨"jid", some (intBytes 8 j.jid), 8, f1 ||| JP_RAWVALUE⟩]
            JAIL_UPDATE = .ok r)) := by
  have c1 := coerce_int_ptr "jid" (by decide) j.jid
  have c2 := coerce_str "host.hostname" (by decide) h hne
  unfold SetHostname
  simp only []
  rcases iterationOrder_pair seed
      (("jid", GoVal.ptr (.int j.jid)) : String × GoVal) ("host.hostname", .str h) with ho | ho
  · rw [ho]
    simp only [bindParameters]
    rw [bindParameter_fresh _ _ _ _ _ _ c1 (by rfl)]
    cases h1 : s.paramInfo "jid" with
    | error code => exact Or.inl ⟨code, rfl⟩
    | ok i1 =>
      obtain ⟨l1, f1⟩ := i1
      simp only []
      rw [bindParameter_fresh _ _ _ _ _ _ c2 (by simp [List.lookup])]
      cases h2 : s.paramInfo "host.hostname" with
      | error code => exact Or.inl ⟨code, rfl⟩
      | ok i2 =>
        obtain ⟨l2, f2⟩ := i2
        simp only [List.nil_append, List.cons_append]
        cases hs : s.set [⟨"jid", some (intBytes 8 j.jid), 8 % 2 ^ 64, f1 ||| JP_RAWVALUE⟩,
                ⟨"host.hostname", some h, h.length % 2 ^ 64, f2 ||| JP_RAWVALUE⟩] JAIL_UPDATE with
        | error code => exact Or.inl ⟨code, rfl⟩
        | ok r => exact Or.inr ⟨rfl, f1, f2, r, Or.inl hs⟩
  · rw [ho]
    simp only [bindParameters]
    rw [bindParameter_fresh _ _ _ _ _ _ c2 (by rfl)]
    cases h2 : s.paramInfo "host.hostname" with
    | error code => exact Or.inl ⟨code, rfl⟩
    | ok i2 =>
      obtain ⟨l2, f2⟩ := i2
      simp only []
      rw [bindParameter_fresh _ _ _ _ _ _ c1 (by simp [List.lookup])]
      cases h1 : s.paramInfo "jid" with
      | error code => exact Or.inl ⟨code, rfl⟩
      | ok i1 =>
        obtain ⟨l1, f1⟩ := i1
        simp only [List.nil_append, List.cons_append]
        cases hs : s.set [⟨"host.hostname", some h, h.length % 2 ^ 64, f2 ||| JP_RAWVALUE⟩,
                ⟨"jid", some (intBytes 8 j.jid), 8 % 2 ^ 64, f1 ||| JP_RAWVALUE⟩] JAIL_UPDATE with
        | error code => exact Or.inl ⟨code, rfl⟩
        | ok r => exact Or.inr ⟨rfl, f1, f2, r, Or.inr hs⟩

/-! ## Lemmas: binding never panics -/

/-- The result of `bindOutput` is success with one more binding, or a Go error. -/
theorem bindOutput_result (k : Kernel) (jpps : jailParamList) (name : String) :
    (∃ e, (bindOutput k jpps name).1 = .error (.err e)) ∨
    ((bindOutput k jpps name).1 = .ok () ∧
      (bindOutput k jpps name).2.params.length = jpps.params.length + 1) := by
  unfold bindOutput
  simp only []
  split
  · exact Or.inl ⟨_, rfl⟩
  · split
    · exact Or.inl ⟨_, rfl⟩
    · exact Or.inr ⟨rfl, by simp⟩

/-- The result of `bindOutputs` is success with no binding lost, or a Go error. -/
theorem bindOutputs_result (k : Kernel) (names : List String) (jpps : jailParamList) :
    (∃ e, (bindOutputs k jpps names).1 = .error (.err e)) ∨
    ((bindOutputs k jpps names).1 = .ok () ∧
      jpps.params.length ≤ (bindOutputs k jpps names).2.params.length) := by
  induction names generalizing jpps with
  | nil => exact Or.inr ⟨rfl, Nat.le_refl _⟩
  | cons name rest ih =>
    unfold bindOutputs
    rcases bindOutput_result k jpps name with ⟨e, he⟩ | ⟨hok, hlen⟩
    · cases hb : bindOutput k jpps name with
      | mk r jpps1 =>
        rw [hb] at he
        simp only [] at he
        subst he
        exact Or.inl ⟨e, rfl⟩
    · cases hb : bindOutput k jpps name with
      | mk r jpps1 =>
        rw [hb] at hok hlen
        simp only [] at hok hlen
        subst hok
        simp only []
        rcases ih jpps1 with h | ⟨h1, h2⟩
        · exact Or.inl h
        · exact Or.inr ⟨h1, by omega⟩

/-- When the kernel refuses every get, `Refresh` returns a Go error and leaves
the handle as it was. -/
theorem Refresh_get_refused (k : Kernel) (j : Jail)
    (hget : ∀ ps f, ∃ code, k.get ps f = .error code) :
    ∃ e, Refresh k j = (.error (.err e), j) := by
  have c1 := coerce_int_ptr "jid" (by decide) j.jid
  unfold Refresh
  simp only []
  rw [bindParameter_fresh _ _ _ _ _ _ c1 (by rfl)]
  cases h1 : k.paramInfo "jid" with
  | error code => exact ⟨_, rfl⟩
  | ok i1 =>
    obtain ⟨l1, f1⟩ := i1
    simp only []
    rcases bindOutputs_result k
        ["parent", "name", "host.hostname", "path", "cpuset.id", "ip4.addr"]
        { params := [] ++ [⟨"jid", some (intBytes 8 j.jid), 8 % 2 ^ 64, f1 ||| JP_RAWVALUE⟩],
          nameMapping := some (("jid", ([] : List Jailparam).length) ::
            (none : Option (List (String × Nat))).getD []) } with ⟨e, he⟩ | ⟨hok, hlen⟩
    · cases hb : bindOutputs k _ _ with
      | mk r jpps2 =>
        rw [hb] at he
        simp only [] at he
        subst he
        exact ⟨e, rfl⟩
    · cases hb : bindOutputs k _ _ with
      | mk r jpps2 =>
        rw [hb] at hok hlen
        simp only [] at hok hlen
        subst hok
        simp only []
        cases hp : jpps2.params with
        | nil => rw [hp] at hlen; simp at hlen
        | cons p ps =>
          simp only []
          obtain ⟨code, hc⟩ := hget (p :: ps) 0
          rw [hc]
          exact ⟨_, rfl⟩

/-! ## Lemmas: a get that succeeds -/

/-- Copying `n` bytes that are there, with `n` below 2^31, succeeds. -/
theorem GoBytes_ok (mem : List Byte) (n : Nat) (hn : n < 2 ^ 31) (hle : n ≤ mem.length) :
    GoBytes (some mem) (cInt n) = .ok (mem.take n) := by
  have h2 : n % 2 ^ 32 = n := Nat.mod_eq_of_lt (by omega)
  have h3 : n < 2147483648 := by omega
  rw [cInt, h2, toSigned_four, if_pos h3]
  by_cases h0 : n = 0
  · subst h0; simp [GoBytes]
  · have h1 : ¬ ((n : Int) = 0) := by omega
    have h4 : ¬ ((n : Int) < 0) := by omega
    simp [GoBytes, h1, h4, hle]

/-- Decoding a String-typed parameter from a buffer the kernel filled succeeds. -/
theorem extract_string_filled (name : String) (hty : jailParamType name = some .stringType)
    (resp : Jailparam → List Byte × Nat) (q : Jailparam) (old : List Byte)
    (hwf : (resp q).2 < 2 ^ 31 ∧ (resp q).2 ≤ (overwrite q.jp_value (resp q).1).length) :
    ∃ s, jailParamTypeExtract name (applyResponse resp q) (.ptr (.str old)) = .ok (.str s) := by
  refine ⟨trimNul ((overwrite q.jp_value (resp q).1).take (resp q).2), ?_⟩
  simp only [jailParamTypeExtract, hty, deref, derefFrom, applyResponse,
    GoBytes_ok _ _ hwf.1 hwf.2]
  rfl

/-- Decoding "ip4.addr" from a buffer the kernel filled succeeds. -/
theorem extract_ip4_filled (resp : Jailparam → List Byte × Nat) (q : Jailparam)
    (old : List (List Byte))
    (hwf : (resp q).2 < 2 ^ 31 ∧ (resp q).2 ≤ (overwrite q.jp_value (resp q).1).length) :
    ∃ l, jailParamTypeExtract "ip4.addr" (applyResponse resp q) (.ptr (.ipSlice old)) =
      .ok (.ipSlice l) := by
  have hty : jailParamType "ip4.addr" = some .ipSliceType := by decide
  obtain ⟨l, hl, _⟩ := readChunks_fuel 4 (by decide)
    (((overwrite q.jp_value (resp q).1).take (resp q).2).length + 1)
    ((overwrite q.jp_value (resp q).1).take (resp q).2) (by omega)
  refine ⟨l, ?_⟩
  simp only [jailParamTypeExtract, hty, deref, derefFrom, applyResponse,
    GoBytes_ok _ _ hwf.1 hwf.2, if_true, hl]

/-- When the kernel knows the parameters and answers the get of `Refresh` with
buffers that are filled as announced, `Refresh` returns no error and the handle
keeps the id that the kernel left in the "jid" buffer. -/
theorem Refresh_ok (k : Kernel) (j : Jail)
    (hinfo : ∀ name ∈ ["jid", "parent", "name", "host.hostname", "path", "cpuset.id",
      "ip4.addr"], ∃ i, k.paramInfo name = .ok i)
    (hget : ∀ (p : Jailparam) (rest : List Jailparam), p.jp_name = "jid" →
      p.jp_value = some (intBytes 8 j.jid) →
      ∃ r resp, k.get (p :: rest) 0 = .ok (r, resp) ∧
        jidAfterGet j.jid ((p :: rest).map (applyResponse resp)) = j.jid ∧
        ∀ q, (resp q).2 < 2 ^ 31 ∧ (resp q).2 ≤ (overwrite q.jp_value (resp q).1).length) :
    ∃ j1, Refresh k j = (.ok (), j1) ∧ j1.jid = j.jid := by
  have c1 := coerce_int_ptr "jid" (by decide) j.jid
  obtain ⟨⟨l0, f0⟩, h0⟩ := hinfo "jid" (by decide)
  obtain ⟨⟨l1, f1⟩, h1⟩ := hinfo "parent" (by decide)
  obtain ⟨⟨l2, f2⟩, h2⟩ := hinfo "name" (by decide)
  obtain ⟨⟨l3, f3⟩, h3⟩ := hinfo "host.hostname" (by decide)
  obtain ⟨⟨l4, f4⟩, h4⟩ := hinfo "path" (by decide)
  obtain ⟨⟨l5, f5⟩, h5⟩ := hinfo "cpuset.id" (by decide)
  obtain ⟨⟨l6, f6⟩, h6⟩ := hinfo "ip4.addr" (by decide)
  have hbp : bindParameter k { params := [], nameMapping := none } "jid" (.ptr (.int j.jid)) =
      (.ok (), { params := [⟨"jid", some (intBytes 8 j.jid), 8, f0 ||| JP_RAWVALUE⟩],
                 nameMapping := some [("jid", 0)] }) := by
    rw [bindParameter_fresh _ _ _ _ _ _ c1 (by rfl), h0]
    rfl
  have hbo : bindOutputs k
      { params := [⟨"jid", some (intBytes 8 j.jid), 8, f0 ||| JP_RAWVALUE⟩],
        nameMapping := some [("jid", 0)] }
      ["parent", "name", "host.hostname", "path", "cpuset.id", "ip4.addr"] =
      (.ok (),
        { params := [⟨"jid", some (intBytes 8 j.jid), 8, f0 ||| JP_RAWVALUE⟩,
            ⟨"parent", none, l1, f1⟩, ⟨"name", none, l2, f2⟩, ⟨"host.hostname", none, l3, f3⟩,
            ⟨"path", none, l4, f4⟩, ⟨"cpuset.id", none, l5, f5⟩, ⟨"ip4.addr", none, l6, f6⟩],
          nameMapping := some [("ip4.addr", 6), ("cpuset.id", 5), ("path", 4),
            ("host.hostname", 3), ("name", 2), ("parent", 1), ("jid", 0)] }) := by
    simp [bindOutputs, bindOutput, jailparam_init, List.lookup, h1, h2, h3, h4, h5, h6]
  obtain ⟨r, resp, hg, hjid, hwf⟩ := hget
    ⟨"jid", some (intBytes 8 j.jid), 8, f0 ||| JP_RAWVALUE⟩
    [⟨"parent", none, l1, f1⟩, ⟨"name", none, l2, f2⟩, ⟨"host.hostname", none, l3, f3⟩,
     ⟨"path", none, l4, f4⟩, ⟨"cpuset.id", none, l5, f5⟩, ⟨"ip4.addr", none, l6, f6⟩] rfl rfl
  obtain ⟨s2, hs2⟩ := extract_string_filled "name" (by decide) resp ⟨"name", none, l2, f2⟩
    j.name (hwf _)
  obtain ⟨s3, hs3⟩ := extract_string_filled "host.hostname" (by decide) resp
    ⟨"host.hostname", none, l3, f3⟩ j.hostname (hwf _)
  obtain ⟨s4, hs4⟩ := extract_string_filled "path" (by decide) resp ⟨"path", none, l4, f4⟩
    j.path (hwf _)
  obtain ⟨a6, hs6⟩ := extract_ip4_filled resp ⟨"ip4.addr", none, l6, f6⟩ j.addrs (hwf _)
  refine ⟨{ j with name := s2, hostname := s3, path := s4, addrs := a6 }, ?_, rfl⟩
  unfold Refresh
  simp only [hbp, hbo, hg]
  simp only [List.map] at hjid ⊢
  simp [grabOutput, List.lookup, hs2, hs3, hs4, hs6, strOf, ipSliceOf, hjid]

/-! ## Lemmas: the enumeration loop -/

/-- A C `int` written to memory reads back as itself. -/
theorem readCInt_intBytes4 (v : Int) (hlo : -2 ^ 31 ≤ v) (hhi : v < 2 ^ 31) :
    readCInt (some (intBytes 4 v)) = some v := by
  have h0 : (0 : Int) ≤ v % (2 : Int) ^ (8 * 4) := Int.emod_nonneg _ (by norm_num)
  obtain ⟨n, hn⟩ := Int.eq_ofNat_of_zero_le h0
  have hn2 : v % 4294967296 = (n : Int) := by rw [← hn]; norm_num
  have hlen : (intBytes 4 v).length = 4 := by simp [intBytes, leBytes]
  have hle : 4 ≤ (intBytes 4 v).length := by omega
  have hnum : (leNat (intBytes 4 v) : Int) = n := by
    simp only [intBytes, hn, Int.toNat_ofNat, leBytes, leNat]
    simp only [Nat.cast_add, Nat.cast_mul, Nat.cast_ofNat]
    omega
  have htake : (intBytes 4 v).take 4 = intBytes 4 v := by
    rw [← hlen]; exact List.take_length _
  simp only [readCInt, hle, if_true, htake, toSigned_four]
  split <;> congr 1 <;> omega

/-- From a bookmark `b` that separates the ids already returned from the ids
`suf` still to come, the loop appends one handle for each id of `suf` and stops. -/
theorem enumerateLoop_walk (k : Kernel) (ids : List Int) (H : HoldsContainers k ids)
    (hrange : ∀ i ∈ ids, 0 < i ∧ i < 2 ^ 31) (suf : List Int) :
    ∀ (pre : List Int) (b : Int) (p : Jailparam) (jails : List Jail) (fuel : Nat),
      ids = pre ++ suf → 0 ≤ b → b < 2 ^ 31 → (∀ i ∈ pre, i ≤ b) →
      (suf.Pairwise (fun x y => x < y)) → (∀ i ∈ suf, b < i) →
      p.jp_name = "lastjid" → p.jp_value = some (intBytes 4 b) → suf.length + 2 ≤ fuel →
      enumerateLoop k fuel b [p] jails = .ok (jails ++ suf.map newHandle) := by
  induction suf with
  | nil =>
    intro pre b p jails fuel hsplit hb0 hb1 hpre _ _ hname hval hf
    have hread : readCInt p.jp_value = some b := by
      rw [hval]; exact readCInt_intBytes4 b (by omega) hb1
    have hfind : ids.find? (fun i => decide (b < i)) = none := by
      rw [List.find?_eq_none]
      intro i hi
      rw [hsplit, List.append_nil] at hi
      have := hpre i hi
      simp only [decide_eq_true_eq, not_lt]
      exact this
    have hg := H.last p b hname hread hfind
    obtain ⟨f1, rfl⟩ : ∃ f1, fuel = f1 + 2 := ⟨fuel - 2, by simp at hf; omega⟩
    simp [enumerateLoop, hb0, hg, storeLastjid]
  | cons id rest ih =>
    intro pre b p jails fuel hsplit hb0 hb1 hpre hsorted hsuf hname hval hf
    have hread : readCInt p.jp_value = some b := by
      rw [hval]; exact readCInt_intBytes4 b (by omega) hb1
    have hbid : b < id := hsuf id (by simp)
    have hfind : ids.find? (fun i => decide (b < i)) = some id := by
      rw [hsplit, List.find?_append]
      have hnone : pre.find? (fun i => decide (b < i)) = none := by
        rw [List.find?_eq_none]
        intro i hi
        have := hpre i hi
        simp only [decide_eq_true_eq, not_lt]
        exact this
      rw [hnone]
      simp [hbid]
    obtain ⟨resp, hg⟩ := H.next p b id hname hread hfind
    have hidr : 0 < id ∧ id < 2 ^ 31 := hrange id (by rw [hsplit]; simp)
    obtain ⟨f1, rfl⟩ : ∃ f1, fuel = f1 + 1 := ⟨fuel - 1, by simp at hf; omega⟩
    have hrec := ih (pre ++ [id]) id
      { applyResponse resp p with jp_value := some (intBytes 4 id) }
      (jails ++ [newHandle id]) f1
      (by rw [hsplit]; simp) (by omega) hidr.2
      (by
        intro i hi
        rcases List.mem_append.mp hi with hi | hi
        · have := hpre i hi; omega
        · simp at hi; omega)
      (List.Pairwise.of_cons hsorted)
      (by
        intro i hi
        exact List.rel_of_pairwise_cons hsorted hi)
      (by simp [applyResponse, hname]) rfl (by simp at hf ⊢; omega)
    simp only [enumerateLoop, hb0, if_true, hg, List.map, storeLastjid]
    rw [hrec]
    simp

/-- On a kernel that holds the containers `ids`, refreshing fresh handles of some
of them succeeds for each and keeps their ids. -/
theorem refreshEach_ok (k : Kernel) (ids : List Int) (H : HoldsContainers k ids)
    (l : List Int) (hl : ∀ i ∈ l, i ∈ ids) :
    ∃ jails, refreshEach k (l.map newHandle) = .ok jails ∧ jails.map Jid = l := by
  induction l with
  | nil => exact ⟨[], rfl, rfl⟩
  | cons id rest ih =>
    obtain ⟨js, hjs, hmap⟩ := ih (fun i hi => hl i (by simp [hi]))
    obtain ⟨j1, hr, hj1⟩ := Refresh_ok k (newHandle id)
      (fun name hn => H.info name (by simp at hn ⊢; tauto))
      (fun p rest hname hval => H.byId p rest id (hl id (by simp)) hname hval)
    refine ⟨j1 :: js, ?_, ?_⟩
    · simp only [List.map_cons, refreshEach, hr, hjs]
    · rw [List.map_cons, hmap]
      simp only [Jid, hj1, newHandle]

/-! ## C11: Refresh and the fields parent and cpusetId -/

/-- Whatever the kernel answers, `Refresh` leaves `parent` and `cpusetId` as they were. -/
theorem Refresh_keeps_parent_cpusetId (k : Kernel) (j : Jail) :
    (Refresh k j).2.parent = j.parent ∧ (Refresh k j).2.cpusetId = j.cpusetId := by
  unfold Refresh
  simp only []
  repeat' split
  all_goals exact ⟨rfl, rfl⟩

/-- C11, the code at the failing input: the kernel answers a get with 3 for
"parent" and 2 for "cpuset.id" (both decode from its response), `Refresh` of a
fresh handle returns no error, and `Parent()` and `CpusetId()` still report 0. -/
theorem Refresh_drops_parent_and_cpuset :
    jailParamTypeExtract "parent"
      (applyResponse
        (fun p => if p.jp_name = "parent" then ([3, 0, 0, 0], 4)
          else if p.jp_name = "cpuset.id" then ([2, 0, 0, 0], 4) else ([], 0))
        ⟨"parent", none, 4, 0⟩) (.ptr (.int 0)) = .ok (.int 3) ∧
    jailParamTypeExtract "cpuset.id"
      (applyResponse
        (fun p => if p.jp_name = "parent" then ([3, 0, 0, 0], 4)
          else if p.jp_name = "cpuset.id" then ([2, 0, 0, 0], 4) else ([], 0))
        ⟨"cpuset.id", none, 4, 0⟩) (.ptr (.int 0)) = .ok (.int 2) ∧
    Refresh
      { paramInfo := fun _ => .ok (4, 0)
        get := fun _ _ => .ok (7, fun p => if p.jp_name = "parent" then ([3, 0, 0, 0], 4)
          else if p.jp_name = "cpuset.id" then ([2, 0, 0, 0], 4) else ([], 0)) }
      (newHandle 7) = (.ok (), newHandle 7) ∧
    Parent (newHandle 7) = 0 ∧ CpusetId (newHandle 7) = 0 := by
  decide

/-! ## C12: update of a single field -/

/-- Binding a Go `int` handed over by value panics, whatever the list. -/
theorem bindParameter_int_by_value (k : Kernel) (jpps : jailParamList) (name : String)
    (hty : jailParamType name = some .intType) (c : Int) :
    bindParameter k jpps name (.int c) = (.error .panic, jpps) := by
  simp [bindParameter, jailParamTypeCoerce, hty, deref, derefFrom, isIntKind]

/-- C12, the code at the failing input: `SetCpusetId` hands the `int` over by
value, so for every kernel, iteration order, handle and id it never returns
success and never changes the handle; on a kernel where every call succeeds it
panics in the encoder, while `SetHostname` with the same kernel succeeds. -/
theorem SetCpusetId_never_succeeds (s : Syscalls) (seed : Nat) (j : Jail) (c : Int) :
    (SetCpusetId s seed j c).1 ≠ .ok () ∧ (SetCpusetId s seed j c).2 = j ∧
    SetCpusetId
      { paramInfo := fun _ => .ok (4, 0), get := fun _ _ => .error 2,
        set := fun _ _ => .ok 7, remove := fun _ => .ok () }
      0 (newHandle 7) 3 = (.error .panic, newHandle 7) ∧
    SetCpusetId
      { paramInfo := fun _ => .ok (4, 0), get := fun _ _ => .error 2,
        set := fun _ _ => .ok 7, remove := fun _ => .ok () }
      1 (newHandle 7) 3 = (.error .panic, newHandle 7) ∧
    SetHostname
      { paramInfo := fun _ => .ok (4, 0), get := fun _ _ => .error 2,
        set := fun _ _ => .ok 7, remove := fun _ => .ok () }
      0 (newHandle 7) [102, 111, 111] =
      (.ok (), { newHandle 7 with hostname := [102, 111, 111] }) := by
  have hty : jailParamType "cpuset.id" = some .intType := by decide
  have key : (SetCpusetId s seed j c).1 ≠ .ok () ∧ (SetCpusetId s seed j c).2 = j := by
    unfold SetCpusetId
    simp only []
    rcases iterationOrder_pair seed
        (("jid", GoVal.ptr (.int j.jid)) : String × GoVal) ("cpuset.id", .int c) with h | h
    · rw [h]
      simp only [bindParameters]
      cases hb : bindParameter s.toKernel { params := [], nameMapping := none } "jid"
          (.ptr (.int j.jid)) with
      | mk r jpps1 =>
        cases r with
        | error f => simp
        | ok u => simp [bindParameter_int_by_value _ _ _ hty]
    · rw [h]
      simp [bindParameters, bindParameter_int_by_value _ _ _ hty]
  exact ⟨key.1, key.2, by decide, by decide, by decide⟩

/-! ## C13: after Destroy -/

/-- C13 (amended): `Destroy` only asks the kernel to remove the jail and records
nothing in the handle, which it leaves as it was whatever it returns. A later
`Refresh`, `SetHostname` (of a non-empty hostname) or `Destroy` on that handle is
sent to the kernel again: when the kernel refuses the call, the operation returns
the error and changes no cached field. -/
theorem Destroy_records_nothing (s later : Syscalls) (seed : Nat) (j : Jail) (h : List Byte)
    (hne : h ≠ []) :
    (Destroy s j).2 = j ∧
    ((∀ ps f, ∃ code, later.get ps f = .error code) →
      ∃ e, Refresh later.toKernel (Destroy s j).2 = (.error (.err e), j)) ∧
    ((∀ ps f, ∃ code, later.set ps f = .error code) →
      ∃ e, SetHostname later seed (Destroy s j).2 h = (.error (.err e), j)) ∧
    ((∃ code, later.remove (cIntOfInt j.jid) = .error code) →
      ∃ e, Destroy later (Destroy s j).2 = (.error (.err e), j)) := by
  have hd : (Destroy s j).2 = j := by
    unfold Destroy
    split <;> rfl
  rw [hd]
  refine ⟨rfl, Refresh_get_refused later.toKernel j, ?_, ?_⟩
  · intro hset
    rcases SetHostname_outcome later seed j h hne with ⟨code, hc⟩ | ⟨_, f1, f2, r, hr | hr⟩
    · exact ⟨_, hc⟩
    · obtain ⟨code, hc⟩ := hset _ JAIL_UPDATE
      rw [hc] at hr; simp at hr
    · obtain ⟨code, hc⟩ := hset _ JAIL_UPDATE
      rw [hc] at hr; simp at hr
  · rintro ⟨code, hc⟩
    refine ⟨.errno code, ?_⟩
    simp only [Destroy, hc]

/-- C13, witness of the amended statement: a kernel on which the jail is gone
answers every later call with ENOENT. -/
theorem Destroy_records_nothing_witness :
    (Destroy
      { paramInfo := fun _ => .ok (4, 0), get := fun _ _ => .error 2,
        set := fun _ _ => .error 2, remove := fun _ => .ok () } (newHandle 7)).2 = newHandle 7 ∧
    (∃ e, Refresh
      { paramInfo := fun _ => .ok (4, 0), get := fun _ _ => .error 2 }
      (Destroy
        { paramInfo := fun _ => .ok (4, 0), get := fun _ _ => .error 2,
          set := fun _ _ => .error 2, remove := fun _ => .ok () } (newHandle 7)).2 =
      (.error (.err e), newHandle 7)) ∧
    (∃ e, SetHostname
      { paramInfo := fun _ => .ok (4, 0), get := fun _ _ => .error 2,
        set := fun _ _ => .error 2, remove := fun _ => .error 2 } 0
      (Destroy
        { paramInfo := fun _ => .ok (4, 0), get := fun _ _ => .error 2,
          set := fun _ _ => .error 2, remove := fun _ => .ok () } (newHandle 7)).2 [102] =
      (.error (.err e), newHandle 7)) ∧
    (∃ e, Destroy
      { paramInfo := fun _ => .ok (4, 0), get := fun _ _ => .error 2,
        set := fun _ _ => .error 2, remove := fun _ => .error 2 }
      (Destroy
        { paramInfo := fun _ => .ok (4, 0), get := fun _ _ => .error 2,
          set := fun _ _ => .error 2, remove := fun _ => .ok () } (newHandle 7)).2 =
      (.error (.err e), newHandle 7)) :=
  have w := Destroy_records_nothing
    { paramInfo := fun _ => .ok (4, 0), get := fun _ _ => .error 2,
      set := fun _ _ => .error 2, remove := fun _ => .ok () }
    { paramInfo := fun _ => .ok (4, 0), get := fun _ _ => .error 2,
      set := fun _ _ => .error 2, remove := fun _ => .error 2 }
    0 (newHandle 7) [102] (by decide)
  ⟨w.1, w.2.1 (fun _ _ => ⟨2, rfl⟩), w.2.2.1 (fun _ _ => ⟨2, rfl⟩), w.2.2.2 ⟨2, rfl⟩⟩

/-- C13 as stated fails: after a `Destroy` that returned no error, on a kernel
that answers the later calls (the id is in use again), `Refresh` returns no error
and overwrites the cached name, `SetHostname` returns no error and changes the
cached hostname, and a second `Destroy` returns no error. -/
theorem Destroy_not_terminal_counterexample :
    (Destroy
      { paramInfo := fun _ => .ok (4, 0),
        get := fun _ _ => .ok (7, fun p => if p.jp_name = "name" then ([106], 1) else ([], 0)),
        set := fun _ _ => .ok 7, remove := fun _ => .ok () } (newHandle 7)) =
      (.ok (), newHandle 7) ∧
    Refresh
      { paramInfo := fun _ => .ok (4, 0),
        get := fun _ _ => .ok (7, fun p => if p.jp_name = "name" then ([106], 1) else ([], 0)) }
      (newHandle 7) = (.ok (), { newHandle 7 with name := [106] }) ∧
    SetHostname
      { paramInfo := fun _ => .ok (4, 0),
        get := fun _ _ => .ok (7, fun p => if p.jp_name = "name" then ([106], 1) else ([], 0)),
        set := fun _ _ => .ok 7, remove := fun _ => .ok () } 0 (newHandle 7) [102] =
      (.ok (), { newHandle 7 with hostname := [102] }) ∧
    (Destroy
      { paramInfo := fun _ => .ok (4, 0),
        get := fun _ _ => .ok (7, fun p => if p.jp_name = "name" then ([106], 1) else ([], 0)),
        set := fun _ _ => .ok 7, remove := fun _ => .ok () } (newHandle 7)).1 = .ok () := by
  decide

/-! ## C14: enumeration is exact -/

/-- C14: on a kernel that holds a fixed set of N containers, with ids in
increasing order `ids` (positive C `int`s), knows the bound parameters, answers
each get on the bookmark with the next id or with ENOENT, and answers a get on
the id of a container, `EnumerateJails` with fuel for N + 2 iterations returns no
error and exactly N handles, whose ids are pairwise distinct and are the ids of
the containers, each of them among the handles. -/
theorem enumerate_exact (k : Kernel) (ids : List Int) (fuel : Nat)
    (H : HoldsContainers k ids) (hsorted : ids.Pairwise (fun x y => x < y))
    (hrange : ∀ i ∈ ids, 0 < i ∧ i < 2 ^ 31) (hf : ids.length + 2 ≤ fuel) :
    ∃ jails, EnumerateJails k fuel = (jails, .ok ()) ∧ jails.map Jid = ids ∧
      jails.length = ids.length ∧ (jails.map Jid).Nodup ∧
      ∀ id ∈ ids, ∃ j ∈ jails, Jid j = id := by
  obtain ⟨⟨l0, f0⟩, h0⟩ := H.info "lastjid" (by decide)
  have c0 : jailParamTypeCoerce "lastjid" (.ptr (.int32 0)) = .ok (some (intBytes 4 0), 4) := by
    decide
  have hbp : bindParameter k { params := [], nameMapping := none } "lastjid" (.ptr (.int32 0)) =
      (.ok (), { params := [⟨"lastjid", some (intBytes 4 0), 4, f0 ||| JP_RAWVALUE⟩],
                 nameMapping := some [("lastjid", 0)] }) := by
    rw [bindParameter_fresh _ _ _ _ _ _ c0 (by rfl), h0]
    rfl
  have hloop := enumerateLoop_walk k ids H hrange ids [] 0
    ⟨"lastjid", some (intBytes 4 0), 4, f0 ||| JP_RAWVALUE⟩ [] fuel
    rfl (by decide) (by decide) (by simp) hsorted (fun i hi => (hrange i hi).1) rfl rfl hf
  obtain ⟨jails, hre, hmap⟩ := refreshEach_ok k ids H ids (fun i hi => hi)
  have hnodup : ids.Nodup := hsorted.imp (fun h => ne_of_lt h)
  refine ⟨jails, ?_, hmap, ?_, ?_, ?_⟩
  · unfold EnumerateJails
    simp only [hbp, hloop, List.nil_append, hre]
  · rw [← hmap, List.length_map]
  · rw [hmap]; exact hnodup
  · intro id hid
    rw [← hmap] at hid
    obtain ⟨j, hj, hjid⟩ := List.mem_map.mp hid
    exact ⟨j, hj, hjid⟩

/-- C14, witness: a kernel that holds the containers 1 and 3. -/
theorem enumerate_exact_witness :
    ∃ jails, EnumerateJails
        { paramInfo := fun _ => .ok (4, 0)
          get := fun ps _ =>
            match ps with
            | [] => .error 22
            | p :: _ =>
              if p.jp_name = "lastjid" then
                match readCInt p.jp_value with
                | none => .error 22
                | some b =>
                  match ([1, 3] : List Int).find? (fun i => decide (b < i)) with
                  | some id => .ok (id, fun _ => ([], 0))
                  | none => .error ENOENT
              else .ok (0, fun _ => ([], 0)) } 4 = (jails, .ok ()) ∧
      jails.map Jid = [1, 3] ∧ jails.length = ([1, 3] : List Int).length ∧
      (jails.map Jid).Nodup ∧ ∀ id ∈ ([1, 3] : List Int), ∃ j ∈ jails, Jid j = id :=
  enumerate_exact _ [1, 3] 4
    { info := fun _ _ => ⟨(4, 0), rfl⟩
      next := by
        intro p b id hname hread hfind
        exact ⟨fun _ => ([], 0), by simp only [hname, if_true, hread, hfind]⟩
      last := by
        intro p b hname hread hfind
        simp only [hname, if_true, hread, hfind]
      byId := by
        intro p rest id hid hname hval
        refine ⟨0, fun _ => ([], 0), ?_, ?_, ?_⟩
        · have hne : ¬ ("jid" = "lastjid") := by decide
          simp only [hname, if_neg hne]
        · simp only [List.map, jidAfterGet, List.head?, applyResponse, hval, overwrite]
          simp only [List.mem_cons, List.mem_singleton, List.not_mem_nil, or_false] at hid
          rcases hid with rfl | rfl <;> decide
        · intro q; simp }
    (by decide) (by decide) (by decide)

/-! ## C15: a failing get during enumeration -/

/-- C15 (amended): when a get call of the loop fails with a code other than
ENOENT the loop stops with that error, whatever handles it had accumulated, and
whenever `EnumerateJails` returns an error the collection it returns with it is
nil: the accumulated handles are dropped. -/
theorem enumerate_abort_returns_nil (k : Kernel) (fuel : Nat) :
    (∀ (lastjid : Int) (p : Jailparam) (rest : List Jailparam) (jails : List Jail) (code : Nat),
      0 ≤ lastjid → k.get (p :: rest) 0 = .error code → code ≠ ENOENT →
      enumerateLoop k (fuel + 1) lastjid (p :: rest) jails = .error (.err (.errno code))) ∧
    (∀ e, (EnumerateJails k fuel).2 = .error (.err e) → (EnumerateJails k fuel).1 = []) := by
  constructor
  · intro lastjid p rest jails code hl hg hc
    simp only [enumerateLoop, hl, if_true, hg, if_neg hc]
  · intro e
    unfold EnumerateJails
    simp only []
    repeat' split
    all_goals first
      | (intro _; rfl)
      | (intro h; simp at h)

/-- C15, witness of the amended statement: the first get returns jail 1, the
second fails with EPERM (errno 1). -/
theorem enumerate_abort_returns_nil_witness :
    enumerateLoop
      { paramInfo := fun _ => .ok (4, 0)
        get := fun ps _ => if ps.head?.bind (fun p => readCInt p.jp_value) = some 0
          then .ok (1, fun _ => ([], 4)) else .error 1 }
      (4 + 1) 1 [⟨"lastjid", some [1, 0, 0, 0], 4, 1⟩] [newHandle 1] = .error (.err (.errno 1)) ∧
    (EnumerateJails
      { paramInfo := fun _ => .ok (4, 0)
        get := fun ps _ => if ps.head?.bind (fun p => readCInt p.jp_value) = some 0
          then .ok (1, fun _ => ([], 4)) else .error 1 } 4).2 = .error (.err (.errno 1)) ∧
    (EnumerateJails
      { paramInfo := fun _ => .ok (4, 0)
        get := fun ps _ => if ps.head?.bind (fun p => readCInt p.jp_value) = some 0
          then .ok (1, fun _ => ([], 4)) else .error 1 } 4).1 = [] :=
  ⟨(enumerate_abort_returns_nil _ 4).1 1 _ _ _ 1 (by decide) rfl (by decide),
   by decide,
   (enumerate_abort_returns_nil _ 4).2 (.errno 1) (by decide)⟩

/-- C15 as stated fails: the first get returns jail 1 and the second fails with
EPERM; `EnumerateJails` returns the error with a nil collection, not with the
handle of jail 1 that it had accumulated. -/
theorem enumerate_abort_counterexample :
    EnumerateJails
      { paramInfo := fun _ => .ok (4, 0)
        get := fun ps _ => if ps.head?.bind (fun p => readCInt p.jp_value) = some 0
          then .ok (1, fun _ => ([], 4)) else .error 1 } 8 =
      ([], .error (.err (.errno 1))) ∧
    ([] : List Jail) ≠ [newHandle 1] := by
  decide

/-! ## C16: NewJail -/

/-- C16, the code at the failing inputs. With the empty name, on a kernel where
every call succeeds, `NewJail` panics in the encoder for every order of the map
iteration and returns nothing. With the name "j", on a kernel that does not know
"persist", building the bindings fails with an errno, the error is dropped, the
jail is created from the bindings made so far, and a handle is returned with a
nil error. -/
theorem NewJail_empty_name_panics (seed : Nat) :
    NewJail
      { paramInfo := fun _ => .ok (4, 0), get := fun _ _ => .ok (7, fun _ => ([], 0)),
        set := fun _ _ => .ok 7, remove := fun _ => .ok () }
      seed [] [47, 116, 109, 112] = (none, .error .panic) ∧
    (bindParameters
      { paramInfo := fun n => if n = "persist" then .error 2 else .ok (4, 0),
        get := fun _ _ => .ok (7, fun _ => ([], 0)) }
      { params := [], nameMapping := none }
      (iterationOrder 0 [("name", .str [106]), ("host.hostname", .str [106]),
        ("path", .str [47, 116, 109, 112]), ("persist", .bool true)])).1 =
      .error (.err (.errno 2)) ∧
    NewJail
      { paramInfo := fun n => if n = "persist" then .error 2 else .ok (4, 0),
        get := fun _ _ => .ok (7, fun _ => ([], 0)),
        set := fun _ _ => .ok 7, remove := fun _ => .ok () }
      0 [106] [47, 116, 109, 112] = (some (newHandle 7), .ok ()) := by
  refine ⟨?_, by decide, by decide⟩
  have hmem := iterationOrder_mem seed
    [(("name", GoVal.str []) : String × GoVal), ("host.hostname", .str []),
     ("path", .str [47, 116, 109, 112]), ("persist", .bool true)]
  unfold NewJail
  simp only []
  generalize iterationOrder seed
    [(("name", GoVal.str []) : String × GoVal), ("host.hostname", .str []),
     ("path", .str [47, 116, 109, 112]), ("persist", .bool true)] = o at hmem ⊢
  revert o
  decide

/-! ## Lemmas: the index while `jailparam_init` succeeds -/

/-- The names and the index after `bindParameter` are the list as it was, or
those that `bindOutput` leaves. -/
theorem bindParameter_names (k : Kernel) (jpps : jailParamList) (name : String) (v : GoVal) :
    (bindParameter k jpps name v).2 = jpps ∨
    (boundNames (bindParameter k jpps name v).2 = boundNames (bindOutput k jpps name).2 ∧
      (bindParameter k jpps name v).2.nameMapping = (bindOutput k jpps name).2.nameMapping) := by
  unfold bindParameter
  cases hc : jailParamTypeCoerce name v with
  | error f => exact Or.inl rfl
  | ok r =>
    obtain ⟨ptr, len⟩ := r
    simp only []
    cases hb : bindOutput k jpps name with
    | mk res jpps1 =>
      cases res with
      | error f => exact Or.inr ⟨rfl, rfl⟩
      | ok u =>
        simp only []
        cases hl : jpps1.params.getLast? with
        | none => exact Or.inr ⟨rfl, rfl⟩
        | some jpp =>
          simp only []
          refine Or.inr ⟨?_, trivial⟩
          have hne : jpps1.params ≠ [] := by
            intro h0; rw [h0] at hl; simp at hl
          rw [List.getLast?_eq_getLast _ hne] at hl
          simp only [Option.some.injEq] at hl
          have hsplit : jpps1.params = jpps1.params.dropLast ++ [jpp] := by
            rw [← hl, List.dropLast_append_getLast hne]
          unfold boundNames
          conv_rhs => rw [hsplit]
          simp

/-- The bijection is kept by `bindOutput` when `jailparam_init` succeeds. -/
theorem bindOutput_indexBijective (k : Kernel) (jpps : jailParamList) (name : String)
    (h : IndexBijective jpps) (hinit : ∃ i, k.paramInfo name = .ok i) :
    IndexBijective (bindOutput k jpps name).2 := by
  cases hlk : (jpps.nameMapping.getD []).lookup name with
  | some idx =>
    have hb : bound jpps name := by unfold bound; rw [hlk]; rfl
    rw [bindOutput_duplicate k jpps name hb]; exact h
  | none =>
    obtain ⟨⟨len, flags⟩, hi⟩ := hinit
    rw [bindOutput_fresh k jpps name hlk, hi]
    have hlen : (boundNames jpps).length = jpps.params.length := by simp [boundNames]
    constructor
    · intro n idx hn
      simp only [boundNames, List.map_append, List.map_cons, List.map_nil, Option.getD_some]
        at hn ⊢
      by_cases hnn : n = name
      · subst hnn
        simp only [List.lookup, beq_self_eq_true, Option.some.injEq] at hn
        subst hn
        rw [List.get?_eq_getElem?, List.getElem?_append_right (by simp)]
        simp
      · have hb : (n == name) = false := by simpa using hnn
        simp only [List.lookup, hb] at hn
        have h1 := h.1 n idx hn
        rw [List.get?_eq_getElem?] at h1 ⊢
        have hlt : idx < (List.map (fun p => p.jp_name) jpps.params).length :=
          (List.getElem?_eq_some.mp h1).1
        rw [List.getElem?_append_left hlt]
        exact h1
    · intro idx n hn
      simp only [boundNames, List.map_append, List.map_cons, List.map_nil, Option.getD_some]
        at hn ⊢
      rw [List.get?_eq_getElem?] at hn
      by_cases hlt : idx < (List.map (fun p => p.jp_name) jpps.params).length
      · rw [List.getElem?_append_left hlt] at hn
        have h2 := h.2 idx n (by rw [List.get?_eq_getElem?]; exact hn)
        have hnn : n ≠ name := by
          intro heq; subst heq; rw [hlk] at h2; simp at h2
        have hb : (n == name) = false := by simpa using hnn
        simp only [List.lookup, hb]
        exact h2
      · rw [List.getElem?_append_right (by omega)] at hn
        have hidx : idx - (List.map (fun p => p.jp_name) jpps.params).length = 0 := by
          by_contra hne
          have : ([name] : List String)[idx - (List.map (fun p => p.jp_name)
              jpps.params).length]? = none := by
            apply List.getElem?_eq_none
            simp only [List.length_singleton]
            omega
          rw [this] at hn; simp at hn
        rw [hidx] at hn
        simp only [List.getElem?_cons_zero, Option.some.injEq] at hn
        subst hn
        have : idx = jpps.params.length := by simp at hlt hidx; omega
        subst this
        simp [List.lookup]

/-- The bijection is kept by `bindParameter` when `jailparam_init` succeeds. -/
theorem bindParameter_indexBijective (k : Kernel) (jpps : jailParamList) (name : String)
    (v : GoVal) (h : IndexBijective jpps) (hinit : ∃ i, k.paramInfo name = .ok i) :
    IndexBijective (bindParameter k jpps name v).2 := by
  rcases bindParameter_names k jpps name v with he | ⟨hn, hm⟩
  · rw [he]; exact h
  · have ho := bindOutput_indexBijective k jpps name h hinit
    unfold IndexBijective at ho ⊢
    rw [hn, hm]
    exact ho

/-- On a kernel that knows every parameter, after any sequence of `bindOutput` and
`bindParameter` calls on an empty list the index is a bijection between the bound
names and the positions of `params`. -/
theorem runCalls_indexBijective (k : Kernel) (hinit : ∀ name, ∃ i, k.paramInfo name = .ok i)
    (calls : List BindCall) :
    IndexBijective (runCalls k { params := [], nameMapping := none } calls) := by
  have gen : ∀ (calls : List BindCall) (jpps : jailParamList), IndexBijective jpps →
      IndexBijective (runCalls k jpps calls) := by
    intro calls
    induction calls with
    | nil => intro jpps h; exact h
    | cons c rest ih =>
      intro jpps h
      cases c with
      | output name => exact ih _ (bindOutput_indexBijective k jpps name h (hinit name))
      | parameter name value =>
        exact ih _ (bindParameter_indexBijective k jpps name value h (hinit name))
  exact gen calls _ ⟨by simp [boundNames, List.lookup], by simp [boundNames]⟩

/-! ## C18: index of the binding list -/

/-- C18, the code at the failing input: on a kernel that does not know "ip6.addr",
`bindOutput` of that name on the empty list returns the errno after it has stored
index 0 for the name, with no binding appended; `grabOutput` of the name then
indexes the empty `params` and panics, and a following `bindOutput` of "path"
gives index 0 to a second name. -/
theorem bindOutput_init_failure_breaks_index :
    bindOutput
      { paramInfo := fun n => if n = "ip6.addr" then .error 2 else .ok (0, 0)
        get := fun _ _ => .error 2 }
      { params := [], nameMapping := none } "ip6.addr" =
      (.error (.err (.errno 2)), { params := [], nameMapping := some [("ip6.addr", 0)] }) ∧
    grabOutput { params := [], nameMapping := some [("ip6.addr", 0)] } "ip6.addr"
      (.ptr (.ipSlice [])) = .error .panic ∧
    bindOutput
      { paramInfo := fun n => if n = "ip6.addr" then .error 2 else .ok (0, 0)
        get := fun _ _ => .error 2 }
      { params := [], nameMapping := some [("ip6.addr", 0)] } "path" =
      (.ok (), { params := [⟨"path", none, 0, 0⟩],
                 nameMapping := some [("path", 0), ("ip6.addr", 0)] }) := by
  decide

end jail

namespace md

/-! ## C17: attach state of a memory disk -/

/-- Whatever the operating system answers, `Detach` leaves `attached` as it was. -/
theorem Detach_keeps_attached (k : MdKernel) (md : MDDev) :
    (Detach k md).2.attached = md.attached := by
  unfold Detach
  split
  · rfl
  · split
    · rfl
    · simp only []
      split <;> simp [setFile] <;> split <;> rfl

/-- C17, the code at the failing input: on a system where every call succeeds, a
new malloc-backed device is not attached, `Attach` returns no error and makes it
attached, `Detach` returns no error and `Attached()` is still true, a second
`Detach` is sent to the system again instead of failing with
`ErrDeviceNotAttached`, and `Attach` is refused with `ErrDeviceAlreadyAttached`. -/
theorem Detach_leaves_device_attached :
    Attached (NewMallocMD 1024) = false ∧
    (Attach ⟨none, fun _ m => (none, { m with md_unit := 4 })⟩ (NewMallocMD 1024)).1 = .ok () ∧
    Attached (Attach ⟨none, fun _ m => (none, { m with md_unit := 4 })⟩ (NewMallocMD 1024)).2 =
      true ∧
    (Detach ⟨none, fun _ m => (none, m)⟩
      (Attach ⟨none, fun _ m => (none, { m with md_unit := 4 })⟩ (NewMallocMD 1024)).2).1 =
      .ok () ∧
    Attached (Detach ⟨none, fun _ m => (none, m)⟩
      (Attach ⟨none, fun _ m => (none, { m with md_unit := 4 })⟩ (NewMallocMD 1024)).2).2 =
      true ∧
    (Detach ⟨none, fun _ m => (none, m)⟩
      (Detach ⟨none, fun _ m => (none, m)⟩
        (Attach ⟨none, fun _ m => (none, { m with md_unit := 4 })⟩ (NewMallocMD 1024)).2).2).1 =
      .ok () ∧
    (Attach ⟨none, fun _ m => (none, { m with md_unit := 5 })⟩
      (Detach ⟨none, fun _ m => (none, m)⟩
        (Attach ⟨none, fun _ m => (none, { m with md_unit := 4 })⟩ (NewMallocMD 1024)).2).2).1 =
      .error .ErrDeviceAlreadyAttached := by
  decide

/-- The parts of C17 that the code keeps: a new device is not attached; `Attach`
of an attached device, and `Detach` or `DevicePath` of an unattached one, fail
with the documented error and change nothing; an `Attach` that returns no error
leaves the device attached. -/
theorem attach_state_guards (k : MdKernel) (md : MDDev) (size : Int) :
    Attached (NewMallocMD size) = false ∧ Attached (NewSwapMD size) = false ∧
    (md.attached = true → Attach k md = (.error .ErrDeviceAlreadyAttached, md)) ∧
    (md.attached = false → Detach k md = (.error .ErrDeviceNotAttached, md)) ∧
    (md.attached = false → DevicePath md = .error .ErrDeviceNotAttached) ∧
    ((Attach k md).1 = .ok () → Attached (Attach k md).2 = true) := by
  refine ⟨rfl, rfl, ?_, ?_, ?_, ?_⟩
  · intro h; simp [Attach, h]
  · intro h; simp [Detach, h]
  · intro h; simp [DevicePath, h]
  · unfold Attach Attached
    split
    · intro h; simp at h
    · split
      · intro h; simp at h
      · simp only []
        split
        · intro h; simp at h
        · intro _; rfl

end md
